import Mathlib

/-!
Verification development for the Sodacan code-map pipeline.

The definitions below are shallow embeddings of the analysis pipeline:
`packages/core/src/orchestrator.ts`, `packages/core/src/InteractionAnalyzer.ts`,
the `CodeQualityAnalyzer`, and the regex-driven parts of the per-language
strategies (`TypeScriptStrategy`, `PHPStrategy`, `TerraformStrategy`).
JavaScript regular expressions are embedded either through the small
backtracking engine `RE` below (encoding the source pattern literally) or
through deterministic scanners that translate a concatenative pattern piece
by piece.  Tree-sitter syntax trees are boundary inputs of the system (the
parser provider is an external collaborator per the specification), so a
tree is modelled as the data the strategies query out of it.  SHA-1 digests
are used by the pipeline only as opaque identifiers compared for equality,
so `sha1Hex` keeps the preimage tag string itself as the identifier: SHA-1
is deterministic, and collision freedom over the finitely many tag strings
of a run is assumed.
-/

namespace Sodacan

/-- Characters matched by the JavaScript regex word class `\w` (ASCII). -/
def isWordChar (c : Char) : Bool :=
  (('a' ≤ c && c ≤ 'z') || ('A' ≤ c && c ≤ 'Z') || ('0' ≤ c && c ≤ '9') || c == '_')

/-- Characters matched by the JavaScript regex class `\s` (ASCII part). -/
def isSpaceChar (c : Char) : Bool :=
  (c == ' ' || c == '\t' || c == '\n' || c == '\r' || c == '\x0b' || c == '\x0c')

/-- ASCII letters and digits, used by env-variable name classes. -/
def isAsciiAlphaNum (c : Char) : Bool :=
  (('a' ≤ c && c ≤ 'z') || ('A' ≤ c && c ≤ 'Z') || ('0' ≤ c && c ≤ '9'))

/-- Lower-casing for the case-insensitive (`/i`) regex flags (ASCII). -/
def lowerChar (c : Char) : Char :=
  if 'A' ≤ c && c ≤ 'Z' then Char.ofNat (c.toNat + 32) else c

/-- Prefix test on character lists, recursing on the pattern first so that
a consumed pattern reduces definitionally even over an abstract tail. -/
def listIsPrefix : List Char → List Char → Bool
  | [], _ => true
  | _ :: _, [] => false
  | a :: as, b :: bs => a == b && listIsPrefix as bs

/-- Suffix test on character lists. -/
def listIsSuffix (pat s : List Char) : Bool :=
  listIsPrefix pat.reverse s.reverse

/-- Substring test: does `pat` occur inside `s` (JavaScript `String.includes`)? -/
def listHasSub (pat s : List Char) : Bool :=
  match s with
  | [] => pat.isEmpty
  | _ :: t => listIsPrefix pat s || listHasSub pat t

/-- Substring test on strings. -/
def containsSub (s pat : String) : Bool :=
  listHasSub pat.toList s.toList

/-- Case-insensitive substring test (regex `/pat/i` for a literal `pat`). -/
def containsSubCI (s pat : String) : Bool :=
  listHasSub (pat.toList.map lowerChar) (s.toList.map lowerChar)

/-- Worker for `indexOfSub`. -/
def indexOfSubAux (pat : List Char) : List Char → Nat → Option Nat
  | [], i => if pat.isEmpty then some i else none
  | l@(_ :: t), i => if listIsPrefix pat l then some i else indexOfSubAux pat t (i + 1)

/-- First index at which `pat` occurs in `s`, or none (JS `String.indexOf`). -/
def indexOfSub (s pat : String) : Option Nat :=
  indexOfSubAux pat.toList s.toList 0

/-- String prefix test (structural, so kernel reduction works). -/
def sStartsWith (s pre : String) : Bool := listIsPrefix pre.toList s.toList

/-- String suffix test. -/
def sEndsWith (s post : String) : Bool := listIsSuffix post.toList s.toList

/-- Drop the first `n` characters. -/
def sDrop (s : String) (n : Nat) : String := String.mk (s.toList.drop n)

/-- Drop the last `n` characters. -/
def sDropRight (s : String) (n : Nat) : String :=
  String.mk (s.toList.take (s.toList.length - n))

/-- ASCII upper-casing of one character (JS `toUpperCase` on ASCII). -/
def asciiUpperChar (c : Char) : Char :=
  if 'a' ≤ c && c ≤ 'z' then Char.ofNat (c.toNat - 32) else c

/-- ASCII upper-casing of a string. -/
def sToUpper (s : String) : String := String.mk (s.toList.map asciiUpperChar)

/-- Whitespace trim on both ends (JS `String.trim`, ASCII part). -/
def trimAscii (s : String) : String :=
  String.mk (((s.toList.dropWhile isSpaceChar).reverse.dropWhile isSpaceChar).reverse)

/-- Worker for the single-character split. -/
def splitOnCharAux (sep : Char) : List Char → List Char → List String
  | [], cur => [String.mk cur.reverse]
  | c :: t, cur =>
    if c == sep then String.mk cur.reverse :: splitOnCharAux sep t []
    else splitOnCharAux sep t (c :: cur)

/-- Split on a single-character separator (JS `String.split`). -/
def sSplitOnChar (sep : Char) (s : String) : List String :=
  splitOnCharAux sep s.toList []

/-- Join with a separator (JS `Array.join`). -/
def sIntercalate (sep : String) : List String → String
  | [] => ""
  | [x] => x
  | x :: t => x ++ sep ++ sIntercalate sep t

/-- Regular expressions, as used by the source patterns: character classes,
concatenation, alternation, star and the word-boundary assertion `\b`. -/
inductive RE where
  | eps : RE
  | cls : (Char → Bool) → RE
  | seq : RE → RE → RE
  | alt : RE → RE → RE
  | star : RE → RE
  | wb : RE

/-- Word-boundary test between the previous character and the next one. -/
def boundaryAt (p : Option Char) (s : List Char) : Bool :=
  let a := match p with | none => false | some c => isWordChar c
  let b := match s with | [] => false | c :: _ => isWordChar c
  a != b

/-- Structural size of a pattern, used to budget the matcher's fuel. -/
def RE.size : RE → Nat
  | .eps => 1
  | .cls _ => 1
  | .seq a b => a.size + b.size + 1
  | .alt a b => a.size + b.size + 1
  | .star r => r.size + 1
  | .wb => 1

/-- Backtracking matcher.  A state is the previous character together with
the unread suffix; results are listed in the JavaScript preference order
(alternatives left to right, star greedy, empty star iterations cut).
The recursion is structural on a fuel budget so the kernel can evaluate
it; every nested call consumes one unit, and star bodies must consume
input, so `(|s| + 2) * (size + 2)` units (see `reAt`) are ample for the
patterns in this file (no star nests inside another star). -/
def RE.runF : Nat → RE → Option Char → List Char → List (Option Char × List Char)
  | 0, _, _, _ => []
  | _ + 1, .eps, p, s => [(p, s)]
  | _ + 1, .cls _, _, [] => []
  | _ + 1, .cls f, _, c :: s => if f c then [(some c, s)] else []
  | fuel + 1, .seq a b, p, s =>
      (RE.runF fuel a p s).flatMap (fun q => RE.runF fuel b q.1 q.2)
  | fuel + 1, .alt a b, p, s => RE.runF fuel a p s ++ RE.runF fuel b p s
  | _ + 1, .wb, p, s => if boundaryAt p s then [(p, s)] else []
  | fuel + 1, .star r, p, s =>
      ((RE.runF fuel r p s).filter (fun q => q.2.length < s.length)).flatMap
        (fun q => RE.runF fuel (.star r) q.1 q.2) ++ [(p, s)]

/-- Attempt a match at the head of `s`; returns the number of characters the
preferred (first-listed) match consumes. -/
def reAt (r : RE) (p : Option Char) (s : List Char) : Option Nat :=
  match (RE.runF ((s.length + 2) * (RE.size r + 2)) r p s).head? with
  | some q => some (s.length - q.2.length)
  | none => none

/-- Generic `matchAll` walker: scan left to right, at each position run the
matcher `f` (which reports a payload and the consumed length); on a match,
record it and resume after it (JS `lastIndex`), advancing one character when
the match was empty. -/
def scanAllAux {α : Type} (f : Option Char → List Char → Option (α × Nat)) :
    Nat → Option Char → List Char → Nat → List (Nat × Nat × α)
  | 0, _, _, _ => []
  | fuel + 1, p, s, i =>
    match f p s with
    | some (a, consumed) =>
        if consumed == 0 then
          (i, i, a) :: (match s with
            | [] => []
            | c :: t => scanAllAux f fuel (some c) t (i + 1))
        else
          let p2 := (s.take consumed).getLast? <|> p
          (i, i + consumed, a) :: scanAllAux f fuel p2 (s.drop consumed) (i + consumed)
    | none =>
        match s with
        | [] => []
        | c :: t => scanAllAux f fuel (some c) t (i + 1)

/-- All matches of `f` over `s`, with start and end indices. -/
def scanAll {α : Type} (f : Option Char → List Char → Option (α × Nat)) (s : String) :
    List (Nat × Nat × α) :=
  scanAllAux f (s.toList.length + 1) none s.toList 0

/-- Matcher wrapper for a regular expression. -/
def reMatcher (r : RE) (p : Option Char) (s : List Char) : Option (Unit × Nat) :=
  (reAt r p s).map (fun n => ((), n))

/-- All matches of regex `r` in `s` as (start, end) index pairs. -/
def reMatchAll (r : RE) (s : String) : List (Nat × Nat) :=
  (scanAll (reMatcher r) s).map (fun q => (q.1, q.2.1))

/-- JavaScript `RegExp.test`. -/
def reTest (r : RE) (s : String) : Bool :=
  !(reMatchAll r s).isEmpty

/-- Regex combinators used to encode the source patterns literally. -/
def chr (c : Char) : RE := .cls (fun x => x == c)

/-- Case-insensitive single character (under the `/i` flag). -/
def chri (c : Char) : RE := .cls (fun x => lowerChar x == lowerChar c)

/-- Literal string (case-sensitive). -/
def strRE (s : String) : RE := (s.toList.map chr).foldr .seq .eps

/-- Literal string under the `/i` flag. -/
def striRE (s : String) : RE := (s.toList.map chri).foldr .seq .eps

/-- Concatenation of a pattern list. -/
def catRE (l : List RE) : RE := l.foldr .seq .eps

/-- Alternation `(a|b|...)`, tried left to right; empty list never matches. -/
def altsRE (l : List RE) : RE := l.foldr .alt (.cls (fun _ => false))

/-- Greedy `r*`. -/
def starRE (r : RE) : RE := .star r

/-- Greedy `r+`. -/
def plusRE (r : RE) : RE := .seq r (.star r)

/-- The class `\s`. -/
def wsRE : RE := .cls isSpaceChar

/-- The class `\w`. -/
def wordRE : RE := .cls isWordChar

/-- The regex `.` (any character but a line terminator). -/
def dotRE : RE := .cls (fun c => !(c == '\n' || c == '\r'))

/-- Slice of a character list between two indices, as a string. -/
def sliceStr (l : List Char) (a b : Nat) : String :=
  String.mk ((l.drop a).take (b - a))

/-- Named characters, used where a literal would clash with brace or quote
conventions of the surrounding text. -/
def quoteD : Char := Char.ofNat 34

/-- Single-quote character. -/
def quoteS : Char := Char.ofNat 39

/-- Backtick character. -/
def quoteB : Char := Char.ofNat 96

/-- Opening curly brace. -/
def braceL : Char := Char.ofNat 123

/-- Closing curly brace. -/
def braceR : Char := Char.ofNat 125

/-- Quote class `['"\x60]` used by the route-extraction patterns. -/
def isQuoteChar (c : Char) : Bool := c == quoteD || c == quoteS || c == quoteB

/-- Metadata fields read by the embedded passes.  `types.ts` stores node
metadata as a free-form bag; only the keys the analyzed passes consult are
modelled, every other key is irrelevant to the embedded code paths. -/
structure Metadata where
  framework : Option String := none
  httpMethod : Option String := none
  kind : Option String := none
  resourceType : Option String := none
  resourceName : Option String := none
  handlerMethod : Option String := none
  componentType : Option String := none
  hookType : Option String := none
  deriving DecidableEq, Repr

/-- Code-map node (`packages/core/src/types.ts`).  `type` and the edge type
are kept as strings, exactly the literals the source compares. -/
structure Node where
  id : String
  type : String
  label : String
  filePath : String
  language : String
  codeSnippet : Option String := none
  metadata : Option Metadata := none
  deriving DecidableEq, Repr

/-- Code-map edge (`packages/core/src/types.ts`). -/
structure Edge where
  sourceId : String
  targetId : String
  type : String
  deriving DecidableEq, Repr

/-- The code map carried through the pipeline, with the metadata stamped at
the end of `Orchestrator.analyzeProject`. -/
structure CodeMap where
  nodes : List Node := []
  edges : List Edge := []
  version : Option String := none
  generatedAt : Option String := none
  generator : Option String := none
  commit : Option String := none
  deriving DecidableEq, Repr

/-- SHA-1 hex digest, modelled as the preimage tag itself: the pipeline
compares digests only for equality, SHA-1 is deterministic, and collision
freedom over the tag strings of a run is assumed (see the header). -/
def sha1Hex (s : String) : String := s

/-- Partial result returned by a strategy (`IAnalysisStrategy`). -/
structure StrategyResult where
  nodes : List Node := []
  edges : List Edge := []
  exports : List (String × String) := []
  calls : List String := []
  deriving DecidableEq, Repr

/-! CodeQualityAnalyzer: `findMatchingBrace` and the two loop detectors
(`detectDBQueriesInLoops`, `detectNPlusOneQueries`). -/

/-- Worker for `findMatchingBrace`, carrying the previous character, the
absolute index, the depth, and the in-string state. -/
def fmbAux : List Char → Option Char → Nat → Int → Bool → Char → Option Nat
  | [], _, _, _, _, _ => none
  | c :: rest, prev, i, depth, inStr, sc =>
    if (c == quoteD || c == quoteS || c == quoteB) && prev != some ('\\') then
      if !inStr then fmbAux rest (some c) (i + 1) depth true c
      else if c == sc then fmbAux rest (some c) (i + 1) depth false sc
      else fmbAux rest (some c) (i + 1) depth true sc
    else if inStr then fmbAux rest (some c) (i + 1) depth inStr sc
    else if c == braceL then fmbAux rest (some c) (i + 1) (depth + 1) inStr sc
    else if c == braceR then
      (if depth - 1 == 0 then some (i + 1)
       else fmbAux rest (some c) (i + 1) (depth - 1) inStr sc)
    else fmbAux rest (some c) (i + 1) depth inStr sc

/-- String-literal-aware matching-brace search from `CodeQualityAnalyzer`;
returns the exclusive end index (the source returns `-1` as `none`). -/
def findMatchingBrace (code : List Char) (start : Nat) : Option Nat :=
  fmbAux (code.drop start)
    (if start == 0 then none else code.get? (start - 1)) start 0 false quoteD

/-- Loop opener `/\bfor\s*\([^)]*\)\s*\x7b/g`. -/
def loopForRE : RE :=
  catRE [.wb, strRE ("for"), starRE wsRE, chr ('('),
    starRE (.cls (fun c => !(c == ')'))), chr (')'), starRE wsRE, chr braceL]

/-- Loop opener `/\bwhile\s*\([^)]*\)\s*\x7b/g`. -/
def loopWhileRE : RE :=
  catRE [.wb, strRE ("while"), starRE wsRE, chr ('('),
    starRE (.cls (fun c => !(c == ')'))), chr (')'), starRE wsRE, chr braceL]

/-- Loop opener `/\bforeach\s*\(/g`. -/
def loopForeachRE : RE :=
  catRE [.wb, strRE ("foreach"), starRE wsRE, chr ('(')]

/-- Loop opener `/\.forEach\s*\(/g` (N+1 detector only). -/
def forEachCallRE : RE :=
  catRE [chr ('.'), strRE ("forEach"), starRE wsRE, chr ('(')]

/-- The seven DB-query patterns of `detectDBQueriesInLoops`, encoded in
source order.  Note the fifth pattern's top-level alternation: the `\b`
and the `DB::`/`Cache::` group bind only to the `table` branch, so any
occurrence of `select`, `insert`, `update` or `delete` matches. -/
def dbQueryPatterns : List RE := [
  catRE [.wb, altsRE [striRE ("SELECT"), striRE ("INSERT"), striRE ("UPDATE"),
    striRE ("DELETE")], plusRE wsRE, starRE dotRE, .wb, striRE ("FROM"), .wb],
  catRE [.wb, altsRE [striRE ("db"), striRE ("DB"), striRE ("database"),
    striRE ("Database"), striRE ("_context"), striRE ("_db")], chr ('.'),
    altsRE [striRE ("query"), striRE ("execute"), striRE ("ExecuteSql"),
      striRE ("FromSql"), striRE ("SaveChanges"), striRE ("SaveChangesAsync")]],
  catRE [.wb, altsRE [striRE ("prisma"), striRE ("sequelize"), striRE ("typeorm")],
    chr ('.'), altsRE [striRE ("findMany"), striRE ("findUnique"), striRE ("create"),
      striRE ("update"), striRE ("delete")]],
  catRE [.wb, altsRE [striRE ("User"), striRE ("Model"), striRE ("Entity"),
    striRE ("DbSet")], chr ('.'), altsRE [striRE ("Find"), striRE ("Where"),
      striRE ("First"), striRE ("FirstOrDefault"), striRE ("Single"),
      striRE ("SingleOrDefault")]],
  altsRE [catRE [.wb, altsRE [striRE ("DB::"), striRE ("Cache::")], striRE ("table")],
    striRE ("select"), striRE ("insert"), striRE ("update"), striRE ("delete")],
  catRE [chr ('.'), altsRE [striRE ("SaveChanges"), striRE ("SaveChangesAsync"),
    striRE ("ExecuteSql"), striRE ("FromSql")]],
  catRE [.wb, altsRE [striRE ("session.query"), striRE ("orm.query"),
    striRE ("db.query"), striRE ("_context.")]]]

/-- The four query patterns of `detectNPlusOneQueries`, in source order. -/
def nPlusQueryPatterns : List RE := [
  catRE [chr ('.'), altsRE [striRE ("Find"), striRE ("FindAsync"), striRE ("First"),
    striRE ("FirstOrDefault"), striRE ("Single"), striRE ("SingleOrDefault"),
    striRE ("Where")], starRE wsRE, chr ('(')],
  catRE [chr ('.'), altsRE [striRE ("Include"), striRE ("ThenInclude"),
    striRE ("Load"), striRE ("LoadAsync")], starRE wsRE, chr ('(')],
  catRE [.wb, altsRE [striRE ("SELECT"), striRE ("query"), striRE ("execute")],
    starRE dotRE, .wb, striRE ("FROM")],
  catRE [striRE ("_context"), chr ('.'), altsRE [striRE ("Set"), striRE ("Find"),
    striRE ("FindAsync")]]]

/-- Eager-loading marker pattern of `detectNPlusOneQueries`. -/
def eagerLoadRE : RE :=
  altsRE [striRE (".Include"), striRE (".ThenInclude"), striRE (".With"),
    striRE (".Join"), striRE ("eager"), striRE ("preload"), striRE (".Load")]

/-- Issue record pushed by the two loop detectors. -/
structure CQIssue where
  filePath : String
  functionName : String
  deriving DecidableEq, Repr

/-- One loop-match step of `detectDBQueriesInLoops`: balance the braces,
test the loop body against the DB patterns, dedupe on
`filePath:label:loopStart`. -/
def dbLoopStep (code : List Char) (fp lbl : String)
    (acc : List String × List CQIssue) (ls : Nat) : List String × List CQIssue :=
  match findMatchingBrace code ls with
  | none => acc
  | some le =>
    let body := sliceStr code ls le
    if dbQueryPatterns.any (fun pat => reTest pat body) then
      let key := fp ++ ":" ++ lbl ++ ":" ++ toString ls
      if acc.1.contains key then acc else (key :: acc.1, acc.2 ++ [⟨fp, lbl⟩])
    else acc

/-- Issues produced by `detectDBQueriesInLoops` for one node's snippet. -/
def detectDBQueriesInLoops (code fp lbl : String) : List CQIssue :=
  (([loopForRE, loopWhileRE, loopForeachRE].foldl (fun acc pat =>
      ((reMatchAll pat code).map Prod.fst).foldl (dbLoopStep code.toList fp lbl) acc)
    ([], []))).2

/-- One loop-match step of `detectNPlusOneQueries`. -/
def nPlusStep (code : List Char) (fp lbl : String)
    (acc : List String × List CQIssue) (ls : Nat) : List String × List CQIssue :=
  match findMatchingBrace code ls with
  | none => acc
  | some le =>
    let body := sliceStr code ls le
    let hasQuery := nPlusQueryPatterns.any (fun pat => reTest pat body)
    let hasEager := reTest eagerLoadRE body
    if hasQuery && !hasEager then
      let key := fp ++ ":" ++ lbl ++ ":" ++ toString ls
      if acc.1.contains key then acc else (key :: acc.1, acc.2 ++ [⟨fp, lbl⟩])
    else acc

/-- Issues produced by `detectNPlusOneQueries` for one node's snippet. -/
def detectNPlusOneQueries (code fp lbl : String) : List CQIssue :=
  (([loopForRE, loopWhileRE, loopForeachRE, forEachCallRE].foldl (fun acc pat =>
      ((reMatchAll pat code).map Prod.fst).foldl (nPlusStep code.toList fp lbl) acc)
    ([], []))).2

/-- Function and APIRoute nodes scanned by `CodeQualityAnalyzer.analyze`;
nodes with an absent or empty snippet are skipped (`if (!code) continue`). -/
def cqScannedNodes (m : CodeMap) : List (String × String × String) :=
  (m.nodes.filter (fun n => n.type == "Function" || n.type == "APIRoute")).filterMap
    (fun n =>
      let code := n.codeSnippet.getD ("")
      if code == "" then none else some (code, n.filePath, n.label))

/-- The `dbQueriesInLoops` issue list of the statistics for a map. -/
def statsDBLoops (m : CodeMap) : List CQIssue :=
  (cqScannedNodes m).flatMap (fun q => detectDBQueriesInLoops q.1 q.2.1 q.2.2)

/-- The `nPlusOneQueries` issue list of the statistics for a map. -/
def statsNPlusOne (m : CodeMap) : List CQIssue :=
  (cqScannedNodes m).flatMap (fun q => detectNPlusOneQueries q.1 q.2.1 q.2.2)

/-! Orchestrator: discovery whitelist, extension-to-language map, the
APIRoute dedupe, the deterministic sort, and the metadata stamp
(`orchestrator.ts`). -/

/-- The brace-expanded extension whitelist of the glob pattern built in
`analyzeProject` (orchestrator.ts line 54), in source order. -/
def extensionsGlob : List String :=
  [("ts"), ("js"), ("py"), ("java"), ("go"), ("html"), ("htm"), ("css"),
   ("cpp"), ("cc"), ("cxx"), ("h"), ("hpp"), ("cs"), ("rs"), ("dart"),
   ("php"), ("rb"), ("kt"), ("kts"), ("swift"), ("scala"), ("sc"), ("lua"),
   ("sh"), ("bash"), ("zsh"), ("yml"), ("yaml"), ("sql"), ("dockerfile"),
   ("json"), ("graphql"), ("gql"), ("tf")]

/-- Whether glob discovery admits a file name through the extension
whitelist: the pattern `<include>.{e1,...,en}` matches exactly the names
ending in a dot followed by a listed extension. -/
def globExtMatch (fileName : String) : Bool :=
  extensionsGlob.any (fun e => sEndsWith fileName ("." ++ e))

/-- Last path segment (`filePath.split('/').pop() || filePath`). -/
def lastPathSegment (fp : String) : String :=
  match (sSplitOnChar ('/') fp).getLast? with
  | some last => if last == "" then fp else last
  | none => fp

/-- Node `path.basename`: trailing slashes dropped, then the last segment. -/
def pathBasename (fp : String) : String :=
  let t := String.mk ((fp.toList.reverse.dropWhile (fun c => c == '/')).reverse)
  match (sSplitOnChar ('/') t).getLast? with
  | some s => s
  | none => ""

/-- Node `path.extname`: the suffix of the basename from its last dot;
empty when there is no dot or the dot is the leading character. -/
def pathExtname (fp : String) : String :=
  let b := (pathBasename fp).toList
  let post := b.reverse.takeWhile (fun c => !(c == '.'))
  if post.length == b.length then ""
  else if b.length - post.length - 1 == 0 then ""
  else String.mk ('.' :: post.reverse)

/-- The `getLanguageFromExtension` switch of the orchestrator. -/
def getLanguageFromExtension (filePath : String) : Option String :=
  let extension := pathExtname filePath
  let filename := pathBasename filePath
  if filename == "Dockerfile" || sStartsWith filename ("Dockerfile.") then
    some ("Dockerfile")
  else if extension == ".js" || extension == ".jsx" then some ("JavaScript")
  else if extension == ".ts" || extension == ".tsx" then some ("TypeScript")
  else if extension == ".py" then some ("Python")
  else if extension == ".java" then some ("Java")
  else if extension == ".go" then some ("Go")
  else if extension == ".html" || extension == ".htm" then some ("HTML")
  else if extension == ".css" then some ("CSS")
  else if extension == ".cpp" || extension == ".cc" || extension == ".cxx"
    || extension == ".h" || extension == ".hpp" then some ("CPP")
  else if extension == ".cs" then some ("CSharp")
  else if extension == ".rs" then some ("Rust")
  else if extension == ".dart" then some ("Dart")
  else if extension == ".php" then some ("PHP")
  else if extension == ".rb" then some ("Ruby")
  else if extension == ".kt" || extension == ".kts" then some ("Kotlin")
  else if extension == ".swift" then some ("Swift")
  else if extension == ".scala" || extension == ".sc" then some ("Scala")
  else if extension == ".lua" then some ("Lua")
  else if extension == ".sh" || extension == ".bash" || extension == ".zsh" then
    some ("Bash")
  else if extension == ".yml" || extension == ".yaml" then some ("YAML")
  else if extension == ".sql" then some ("SQL")
  else if extension == ".tf" then some ("Terraform")
  else if extension == ".proto" then some ("Proto")
  else if extension == ".graphql" || extension == ".gql" then some ("GraphQL")
  else if extension == ".json" then some ("JSON")
  else if extension == ".dockerfile" then some ("Dockerfile")
  else none

/-- Dedupe key of an APIRoute node (orchestrator.ts line 139). -/
def routeKey (n : Node) : String := n.filePath ++ "::" ++ n.label

/-- Single scan of the node list building the canonical-id map (first node
per key) and the removal set (ids of later nodes with a seen key). -/
def dedupeScan : List Node → List (String × String) → List String →
    List (String × String) × List String
  | [], fk, tr => (fk, tr)
  | n :: rest, fk, tr =>
    if n.type == "APIRoute" then
      let k := routeKey n
      if (fk.find? (fun p => p.1 == k)).isSome then
        dedupeScan rest fk (if tr.contains n.id then tr else n.id :: tr)
      else dedupeScan rest ((k, n.id) :: fk) tr
    else dedupeScan rest fk tr

/-- APIRoute dedupe pass of `analyzeProject` (orchestrator.ts lines
138-163): key `(filePath, label)`, keep the first, rewrite edges that
target a removed id to the canonical id, drop the removed nodes. -/
def dedupeAPIRoutes (m : CodeMap) : CodeMap :=
  let scan := dedupeScan m.nodes [] []
  let firstByKey := scan.1
  let toRemove := scan.2
  if toRemove.isEmpty then m
  else
    let edges := m.edges.map (fun e =>
      if toRemove.contains e.targetId then
        match m.nodes.find? (fun nn => nn.id == e.targetId) with
        | some dup =>
          match (firstByKey.find? (fun p => p.1 == routeKey dup)).map Prod.snd with
          | some canonical => { e with targetId := canonical }
          | none => e
        | none => e
      else e)
    let nodes := m.nodes.filter (fun n => !(toRemove.contains n.id))
    { m with nodes := nodes, edges := edges }

/-- Stable insertion of an element into a sorted list: placed before the
first element it compares less-or-equal to, so earlier elements keep
their relative order on ties. -/
def insertSorted {α : Type} (le : α → α → Bool) (a : α) : List α → List α
  | [] => [a]
  | b :: t => if le a b then a :: b :: t else b :: insertSorted le a t

/-- Stable sort (insertion sort).  `Array.prototype.sort` is stable, and a
stable sort is determined by the comparator, so any stable sort models the
source's call. -/
def stableSort {α : Type} (le : α → α → Bool) (l : List α) : List α :=
  l.foldr (insertSorted le) []

/-- Node comparator of the deterministic sort, with `localeCompare`
modelled as code-point comparison. -/
def nodeCmp (a b : Node) : Ordering :=
  match compare a.type b.type with
  | Ordering.eq =>
    match compare a.filePath b.filePath with
    | Ordering.eq => compare a.label b.label
    | o => o
  | o => o

/-- Edge comparator of the deterministic sort. -/
def edgeCmp (a b : Edge) : Ordering :=
  match compare a.type b.type with
  | Ordering.eq =>
    match compare a.sourceId b.sourceId with
    | Ordering.eq => compare a.targetId b.targetId
    | o => o
  | o => o

/-- Final step of `analyzeProject` (lines 165-182): sort nodes and edges,
then stamp `version`, `generatedAt`, `generator` and the best-effort
`commit`.  `generatedAt` is `new Date().toISOString()` and `commit` comes
from `git rev-parse HEAD`, so both are parameters of the embedding: they
are inputs from the clock and the ambient git state, not from the corpus. -/
def finalizeCodeMap (now : String) (commit : Option String) (m : CodeMap) : CodeMap :=
  { m with
    nodes := stableSort (fun a b => !(nodeCmp a b == Ordering.gt)) m.nodes,
    edges := stableSort (fun a b => !(edgeCmp a b == Ordering.gt)) m.edges,
    version := some ("1.0.0"),
    generatedAt := some now,
    generator := some ("@docufy/core"),
    commit := commit }

/-! Interaction analyzer passes: DB lineage, ORM lineage, Terraform
linkage, GraphQL SDL linkage (`InteractionAnalyzer.ts`). -/

/-- The SQL heuristic `/(SELECT|INSERT\s+INTO|UPDATE\s+\w+\s+SET|DELETE\s+FROM)\b/i`
of `analyzeDBLineage` (a trailing word boundary, no leading one). -/
def sqlLineageRE : RE :=
  catRE [altsRE [striRE ("SELECT"),
    catRE [striRE ("INSERT"), plusRE wsRE, striRE ("INTO")],
    catRE [striRE ("UPDATE"), plusRE wsRE, plusRE wordRE, plusRE wsRE, striRE ("SET")],
    catRE [striRE ("DELETE"), plusRE wsRE, striRE ("FROM")]], .wb]

/-- The synthetic generic database node. -/
def dbGenericNode : Node :=
  { id := "db:generic", type := "Component", label := "Database",
    filePath := "", language := "N/A", metadata := some { kind := some ("database") } }

/-- DB lineage pass: a `DB_QUERY` edge from every Function node whose
(non-empty) snippet matches the SQL heuristic to the on-demand `db:generic`
node.  The source pushes onto the array it iterates; appended synthetic
nodes have no snippet, so scanning them is a no-op and the fold below is
extensionally the same loop. -/
def analyzeDBLineage (m : CodeMap) : CodeMap :=
  let step := fun (acc : List Node × List Edge) (n : Node) =>
    let hit := n.type == "Function" &&
      (match n.codeSnippet with
       | some s => !(s == "") && reTest sqlLineageRE s
       | none => false)
    if hit then
      let extras :=
        if ((m.nodes ++ acc.1).find? (fun x => x.id == "db:generic")).isSome then acc.1
        else acc.1 ++ [dbGenericNode]
      (extras, acc.2 ++ [⟨n.id, "db:generic", "DB_QUERY"⟩])
    else acc
  let r := m.nodes.foldl step ([], [])
  { m with nodes := m.nodes ++ r.1, edges := m.edges ++ r.2 }

/-! Deterministic scanners.  Each translates one concatenative source
regex piece by piece; the JavaScript backtracking these patterns can
perform never changes the outcome because every greedy repetition here
ranges over a class disjoint from what may follow it, and no alternative
literal is a prefix of a later one. -/

/-- Consume a literal. -/
def eatStr (lit : String) (s : List Char) : Option (List Char) :=
  if listIsPrefix lit.toList s then some (s.drop lit.length) else none

/-- Consume `\s*`. -/
def eatWs (s : List Char) : List Char := s.dropWhile isSpaceChar

/-- Consume `\s+`. -/
def eatWs1 (s : List Char) : Option (List Char) :=
  match s with
  | c :: t => if isSpaceChar c then some (t.dropWhile isSpaceChar) else none
  | [] => none

/-- Consume a non-empty greedy run of a class, returning its text. -/
def eatClass1 (f : Char → Bool) (s : List Char) : Option (String × List Char) :=
  match s with
  | c :: t =>
    if f c then some (String.mk (c :: t.takeWhile f), t.dropWhile f) else none
  | [] => none

/-- Consume the first matching literal of an alternation. -/
def eatAltLit (lits : List String) (s : List Char) : Option (String × List Char) :=
  match lits with
  | [] => none
  | l :: rest =>
    match eatStr l s with
    | some t => some (l, t)
    | none => eatAltLit rest s

/-- Consume one identifier `[a-zA-Z_][a-zA-Z0-9_]*`. -/
def eatIdent (s : List Char) : Option (String × List Char) :=
  match s with
  | c :: t =>
    if (('a' ≤ c && c ≤ 'z') || ('A' ≤ c && c ≤ 'Z') || c == '_') then
      some (String.mk (c :: t.takeWhile isWordChar), t.dropWhile isWordChar)
    else none
  | [] => none

/-- Scanner for `/prisma\.([a-zA-Z_][a-zA-Z0-9_]*)\.(findMany|findUnique|findFirst|create|update|delete)/g`. -/
def prismaAt (_ : Option Char) (s : List Char) : Option ((String × String) × Nat) := do
  let s1 ← eatStr ("prisma.") s
  let (table, s2) ← eatIdent s1
  let s3 ← eatStr (".") s2
  let (op, s4) ← eatAltLit
    [("findMany"), ("findUnique"), ("findFirst"), ("create"), ("update"), ("delete")] s3
  pure ((table, op), s.length - s4.length)

/-- All prisma matches `(table, op)` in a snippet. -/
def prismaMatches (code : String) : List (String × String) :=
  (scanAll prismaAt code).map (fun q => q.2.2)

/-- Scanner for `/define\(\s*['"\x60]([^'"\x60]+)['"\x60]/g`. -/
def defineAt (_ : Option Char) (s : List Char) : Option (String × Nat) := do
  let s1 ← eatStr ("define(") s
  let s2 := eatWs s1
  match s2 with
  | q :: s3 =>
    if isQuoteChar q then do
      let (name, s4) ← eatClass1 (fun c => !(isQuoteChar c)) s3
      match s4 with
      | q2 :: s5 => if isQuoteChar q2 then pure (name, s.length - s5.length) else none
      | [] => none
    else none
  | [] => none

/-- All sequelize `define('name', ...)` table names in a snippet. -/
def defineMatches (code : String) : List String :=
  (scanAll defineAt code).map (fun q => q.2.2)

/-- Scanner for `/__tablename__\s*=\s*['"]([^'"]+)['"]/g` (single or double
quotes only, no backtick in this pattern). -/
def tablenameAt (_ : Option Char) (s : List Char) : Option (String × Nat) := do
  let s1 ← eatStr ("__tablename__") s
  let s2 := eatWs s1
  let s3 ← eatStr ("=") s2
  let s4 := eatWs s3
  match s4 with
  | q :: s5 =>
    if q == quoteD || q == quoteS then do
      let (name, s6) ← eatClass1 (fun c => !(c == quoteD || c == quoteS)) s5
      match s6 with
      | q2 :: s7 =>
        if q2 == quoteD || q2 == quoteS then pure (name, s.length - s7.length) else none
      | [] => none
    else none
  | [] => none

/-- All SQLAlchemy `__tablename__` names in a snippet. -/
def tablenameMatches (code : String) : List String :=
  (scanAll tablenameAt code).map (fun q => q.2.2)

/-- The synthetic table node created by `ensureTable`. -/
def mkTableNode (name : String) : Node :=
  { id := "table:" ++ name, type := "Component", label := name,
    filePath := "", language := "N/A", metadata := some { kind := some ("table") } }

/-- Step of `ensureTable`: append the table node when its id is absent. -/
def ensureTable (base : List Node) (extras : List Node) (name : String) : List Node :=
  if ((base ++ extras).find? (fun n => n.id == "table:" ++ name)).isSome then extras
  else extras ++ [mkTableNode name]

/-- Edge type chosen for a prisma operation (`analyzeORM`):
`READS_FROM` for find/select, `WRITES_TO` for create/update/delete,
otherwise `REFERENCES`. -/
def prismaEdgeType (op : String) : String :=
  if containsSubCI op ("find") || containsSubCI op ("select") then "READS_FROM"
  else if containsSubCI op ("create") || containsSubCI op ("update")
    || containsSubCI op ("delete") then "WRITES_TO"
  else "REFERENCES"

/-- ORM lineage pass (`analyzeORM`): prisma operations create table nodes
and typed edges; sequelize `define` and SQLAlchemy `__tablename__` create
table nodes.  The sequelize/SQLAlchemy operation loops of the source bind
no table and push nothing.  As in `analyzeDBLineage`, scanning the table
nodes appended during the iteration is a no-op (they carry no snippet). -/
def analyzeORM (m : CodeMap) : CodeMap :=
  let step := fun (acc : List Node × List Edge) (n : Node) =>
    let code := n.codeSnippet.getD ("")
    let afterPrisma := (prismaMatches code).foldl
      (fun (a : List Node × List Edge) q =>
        let extras := ensureTable m.nodes a.1 q.1
        (extras, a.2 ++ [⟨n.id, "table:" ++ q.1, prismaEdgeType q.2⟩])) acc
    let afterDefine := (defineMatches code).foldl
      (fun (a : List Node × List Edge) nm => (ensureTable m.nodes a.1 nm, a.2))
      afterPrisma
    (tablenameMatches code).foldl
      (fun (a : List Node × List Edge) nm => (ensureTable m.nodes a.1 nm, a.2))
      afterDefine
  let r := m.nodes.foldl step ([], [])
  { m with nodes := m.nodes ++ r.1, edges := m.edges ++ r.2 }

/-! Terraform inter-resource linkage (`analyzeTerraform`). -/

/-- Terraform resource nodes of a map: Terraform language and
`metadata.kind == 'resource'`. -/
def tfResources (m : CodeMap) : List Node :=
  m.nodes.filter (fun n => n.language == "Terraform" &&
    (match n.metadata with
     | some md => md.kind == some ("resource")
     | none => false))

/-- The `type.name` index over resources; `Map.set` overwrites, so lookup
returns the value of the latest `set` for a key. -/
def tfByLabel (resources : List Node) : List (String × Node) :=
  resources.foldl (fun acc r =>
    let rt := (match r.metadata with
               | some md => md.resourceType.getD ("")
               | none => "")
    let rn := (match r.metadata with
               | some md => md.resourceName.getD ("")
               | none => "")
    if !(rt == "") && !(rn == "") then (rt ++ "." ++ rn, r) :: acc else acc) []

/-- Lookup in the index (latest `set` wins, matching `Map.get`). -/
def tfGet (byLabel : List (String × Node)) (key : String) : Option Node :=
  (byLabel.find? (fun p => p.1 == key)).map Prod.snd

/-- Scanner for `/depends_on\s*=\s*\[([^\]]+)\]/g`, capturing the list. -/
def depListAt (_ : Option Char) (s : List Char) : Option (String × Nat) := do
  let s1 ← eatStr ("depends_on") s
  let s2 := eatWs s1
  let s3 ← eatStr ("=") s2
  let s4 := eatWs s3
  let s5 ← eatStr ("[") s4
  let (lst, s6) ← eatClass1 (fun c => !(c == ']')) s5
  let s7 ← eatStr ("]") s6
  pure (lst, s.length - s7.length)

/-- All `depends_on` list bodies in a snippet. -/
def tfDepLists (code : String) : List String :=
  (scanAll depListAt code).map (fun q => q.2.2)

/-- Scanner for the listed-id pattern `/[A-Za-z0-9_]+\.[A-Za-z0-9_]+/g`
applied to a `depends_on` list body. -/
def tokenNBAt (_ : Option Char) (s : List Char) : Option (String × Nat) := do
  let (a, s1) ← eatClass1 isWordChar s
  let s2 ← eatStr (".") s1
  let (b, s3) ← eatClass1 isWordChar s2
  pure (a ++ "." ++ b, s.length - s3.length)

/-- All dotted tokens of a `depends_on` list body. -/
def tfTokensNB (lst : String) : List String :=
  (scanAll tokenNBAt lst).map (fun q => q.2.2)

/-- Scanner for the inline-reference pattern
`/\b([A-Za-z0-9_]+\.[A-Za-z0-9_]+)\b/g`.  The trailing `\b` holds by
construction after a greedy word run, and the leading `\b` is the
boundary test against the previous character. -/
def refTokenAt (p : Option Char) (s : List Char) : Option (String × Nat) := do
  guard (boundaryAt p s)
  let (a, s1) ← eatClass1 isWordChar s
  let s2 ← eatStr (".") s1
  let (b, s3) ← eatClass1 isWordChar s2
  pure (a ++ "." ++ b, s.length - s3.length)

/-- All inline dotted references of a resource snippet. -/
def tfRefTokens (code : String) : List String :=
  (scanAll refTokenAt code).map (fun q => q.2.2)

/-- The `REFERENCES` edges one resource contributes: `depends_on` entries
first, inline references second, in scan order. -/
def tfEdgesFor (byLabel : List (String × Node)) (r : Node) : List Edge :=
  let code := r.codeSnippet.getD ("")
  let depEdges := (tfDepLists code).flatMap (fun lst =>
    (tfTokensNB lst).filterMap (fun tok =>
      (tfGet byLabel tok).map (fun t => ⟨r.id, t.id, "REFERENCES"⟩)))
  let refEdges := (tfRefTokens code).filterMap (fun tok =>
    (tfGet byLabel tok).map (fun t => ⟨r.id, t.id, "REFERENCES"⟩))
  depEdges ++ refEdges

/-- Terraform linkage pass (`analyzeTerraform`). -/
def analyzeTerraform (m : CodeMap) : CodeMap :=
  let resources := tfResources m
  let byLabel := tfByLabel resources
  { m with edges := m.edges ++ resources.flatMap (tfEdgesFor byLabel) }

/-- The synthetic GraphQL schema node. -/
def graphqlSchemaNode : Node :=
  { id := "graphql:schema", type := "Component", label := "GraphQL Schema",
    filePath := "", language := "N/A", metadata := some { kind := some ("graphql") } }

/-- GraphQL SDL pass (`analyzeGraphQLSDL`): every node whose path ends in
`.graphql` or `.gql` gets a `REFERENCES` edge to the once-created schema
node. -/
def analyzeGraphQLSDL (m : CodeMap) : CodeMap :=
  let sdlFiles := m.nodes.filter (fun n =>
    sEndsWith n.filePath (".graphql") || sEndsWith n.filePath (".gql"))
  if sdlFiles.isEmpty then m
  else
    let nodes2 :=
      if (m.nodes.find? (fun n => n.id == "graphql:schema")).isSome then m.nodes
      else m.nodes ++ [graphqlSchemaNode]
    { m with
      nodes := nodes2,
      edges := m.edges ++ sdlFiles.map (fun f => ⟨f.id, "graphql:schema", "REFERENCES"⟩) }

/-! TypeScript strategy (`TypeScriptStrategy.analyze`).  The tree-sitter
syntax tree is an external input; it is modelled as the data the
strategy's four queries extract from it: named function declarations and
arrow-function declarations (with the text of their top-level enclosing
declaration), class declarations, and the texts of import sources.  The
route extraction, the React classification and the call-site scan work on
the raw file text and file path exactly as in the source. -/

/-- Model of the tree-sitter tree consumed by the TypeScript strategy. -/
structure TsTree where
  rootText : String := ""
  functionDecls : List (String × String) := []
  arrowDecls : List (String × String) := []
  classDecls : List (String × String) := []
  importTexts : List String := []
  deriving Repr

/-- Strip quote characters (`text.replace(/["']/g, '')`). -/
def stripQuotes (s : String) : String :=
  String.mk (s.toList.filter (fun c => !(c == quoteD || c == quoteS)))

/-- React import detection (`detectReactImports`). -/
def tsDetectReactImports (importTexts : List String) : Bool :=
  importTexts.any (fun raw =>
    let p := stripQuotes raw
    p == "react" || sStartsWith p ("react/") || sStartsWith p ("@react")
      || containsSub p ("react-"))

/-- React component test (`isReactComponent`): capitalized name and a JSX
marker in the enclosing declaration text. -/
def tsIsReactComponent (nm snip : String) : Bool :=
  (match nm.toList with
   | c :: _ => 'A' ≤ c && c ≤ 'Z'
   | [] => false) &&
  (containsSub snip ("return <") || containsSub snip ("jsx")
    || containsSub snip ("createElement"))

/-- React hook test (`isReactHook`, `/^use[A-Z]/`). -/
def tsIsReactHook (nm : String) : Bool :=
  match nm.toList with
  | 'u' :: 's' :: 'e' :: c :: _ => 'A' ≤ c && c ≤ 'Z'
  | _ => false

/-- Node built by `processFunctionMatch` for one (name, snippet) match. -/
def tsProcessFunction (isReactFile : Bool) (filePath nm snip : String) : Node :=
  let isComp := isReactFile && tsIsReactComponent nm snip
  let isHook := isReactFile && tsIsReactHook nm
  { id := sha1Hex ("function:" ++ nm ++ ":" ++ filePath),
    label := nm,
    type := if isComp then "Component" else "Function",
    filePath := filePath,
    language := "TypeScript",
    codeSnippet := some snip,
    metadata :=
      if isComp then some { framework := some ("React"), componentType := some ("functional") }
      else if isHook then some { framework := some ("React"), hookType := some ("custom") }
      else none }

/-- Scanner for the Express route pattern
`/\b(app|router)\.(get|post|put|patch|delete)\s*\(\s*['"\x60]([^'"\x60]+)['"\x60]/g`. -/
def expressAt (p : Option Char) (s : List Char) : Option ((String × String) × Nat) := do
  guard (boundaryAt p s)
  let s1 ← (eatStr ("app") s) <|> (eatStr ("router") s)
  let s2 ← eatStr (".") s1
  let (method, s3) ← eatAltLit [("get"), ("post"), ("put"), ("patch"), ("delete")] s2
  let s4 := eatWs s3
  let s5 ← eatStr ("(") s4
  let s6 := eatWs s5
  match s6 with
  | q :: s7 =>
    if isQuoteChar q then do
      let (pathStr, s8) ← eatClass1 (fun c => !(isQuoteChar c)) s7
      match s8 with
      | q2 :: s9 =>
        if isQuoteChar q2 then pure ((sToUpper method, pathStr), s.length - s9.length)
        else none
      | [] => none
    else none
  | [] => none

/-- All Express route matches `(METHOD, path)` of a file text. -/
def tsExpressRoutes (text : String) : List (String × String) :=
  (scanAll expressAt text).map (fun q => q.2.2)

/-- Closing part `['"\x60]??\s*\)` of the NestJS decorator patterns: prefer
skipping the lazy-optional quote, else consume one quote character. -/
def nestCloseFrom (s : List Char) : Option (List Char) :=
  (eatStr (")") (eatWs s)) <|>
  (match s with
   | c :: t => if isQuoteChar c then eatStr (")") (eatWs t) else none
   | [] => none)

/-- Scanner for `/@Controller\(\s*['"\x60]([^'"\x60]*)['"\x60]??\s*\)/`. -/
def controllerAt (_ : Option Char) (s : List Char) : Option (String × Nat) := do
  let s1 ← eatStr ("@Controller(") s
  let s2 := eatWs s1
  match s2 with
  | q :: s3 =>
    if isQuoteChar q then do
      let base := s3.takeWhile (fun c => !(isQuoteChar c))
      let s4 ← nestCloseFrom (s3.dropWhile (fun c => !(isQuoteChar c)))
      pure (String.mk base, s.length - s4.length)
    else none
  | [] => none

/-- First `@Controller('base')` match of a file text (`RegExp.exec`). -/
def tsControllerBase (text : String) : Option String :=
  ((scanAll controllerAt text).head?).map (fun q => q.2.2)

/-- Scanner for `/@(Get|Post|Put|Patch|Delete)\(\s*['"\x60]([^'"\x60]*)['"\x60]??\s*\)/g`. -/
def nestDecoAt (_ : Option Char) (s : List Char) : Option ((String × String) × Nat) := do
  let s1 ← eatStr ("@") s
  let (method, s2) ← eatAltLit [("Get"), ("Post"), ("Put"), ("Patch"), ("Delete")] s1
  let s3 ← eatStr ("(") s2
  let s4 := eatWs s3
  match s4 with
  | q :: s5 =>
    if isQuoteChar q then do
      let sub := s5.takeWhile (fun c => !(isQuoteChar c))
      let s6 ← nestCloseFrom (s5.dropWhile (fun c => !(isQuoteChar c)))
      pure ((sToUpper method, String.mk sub), s.length - s6.length)
    else none
  | [] => none

/-- All NestJS method-decorator matches `(METHOD, subpath)` of a file text. -/
def tsNestDecos (text : String) : List (String × String) :=
  (scanAll nestDecoAt text).map (fun q => q.2.2)

/-- The `joinNestPath` helper. -/
def joinNestPath (base sub : String) : String :=
  let b := if sEndsWith base ("/") then sDropRight base 1 else base
  let s := if sStartsWith sub ("/") then sDrop sub 1 else sub
  let joined := sIntercalate ("/") ([b, s].filter (fun x => !(x == "")))
  "/" ++ (if sStartsWith joined ("/") then sDrop joined 1 else joined)

/-- Strip the first matching suffix, as the anchored replace calls do. -/
def stripSuffixOne (s : String) (cands : List String) : String :=
  match cands.find? (fun c => sEndsWith s c) with
  | some c => sDropRight s c.length
  | none => s

/-- The `normalizeApiPath` helper. -/
def normalizeApiPath (filePath baseDir : String) : String :=
  match indexOfSub filePath (baseDir ++ "/") with
  | none => "/api"
  | some idx =>
    let rest0 := String.mk (filePath.toList.drop (idx + baseDir.length + 1))
    let rest1 := stripSuffixOne rest0
      [("/route.ts"), ("/route.tsx"), ("/route.js"), ("/route.jsx")]
    let rest2 := stripSuffixOne rest1 [(".ts"), (".tsx"), (".js"), (".jsx")]
    if sStartsWith rest2 ("/") then rest2 else "/" ++ rest2

/-- Test `/\bpages\/api\//` on the file path. -/
def pagesApiTest (fp : String) : Bool :=
  reTest (catRE [.wb, strRE ("pages/api/")]) fp

/-- Test `/\bapp\/api\//` on the file path. -/
def appApiTest (fp : String) : Bool :=
  reTest (catRE [.wb, strRE ("app/api/")]) fp

/-- Test `/\/route\.(ts|tsx|js|jsx)$/` on the file path. -/
def routeFileTest (fp : String) : Bool :=
  [("/route.ts"), ("/route.tsx"), ("/route.js"), ("/route.jsx")].any
    (fun c => sEndsWith fp c)

/-- Scanner for `/export\s+(async\s+)?function\s+(GET|POST|PUT|PATCH|DELETE)\b/g`. -/
def exportMethodAt (_ : Option Char) (s : List Char) : Option (String × Nat) := do
  let s1 ← eatStr ("export") s
  let s2 ← eatWs1 s1
  let s3 := ((do
    let a ← eatStr ("async") s2
    eatWs1 a) <|> some s2)
  match s3 with
  | none => none
  | some s3 => do
    let s4 ← eatStr ("function") s3
    let s5 ← eatWs1 s4
    let (method, s6) ← eatAltLit [("GET"), ("POST"), ("PUT"), ("PATCH"), ("DELETE")] s5
    guard (boundaryAt (method.toList.getLast?) s6)
    pure (method, s.length - s6.length)

/-- All exported HTTP-method handlers of a file text, in match order. -/
def tsExportedMethods (text : String) : List String :=
  (scanAll exportMethodAt text).map (fun q => q.2.2)

/-- Insertion-order dedup (`Array.from(new Set(methods))`). -/
def dedupKeepFirst (l : List String) : List String :=
  l.foldl (fun acc m => if acc.contains m then acc else acc ++ [m]) []

/-- Scanner for the call-site pattern `/\b([a-zA-Z_][a-zA-Z0-9_]*)\s*\(/g`. -/
def callAt (p : Option Char) (s : List Char) : Option (String × Nat) := do
  guard (boundaryAt p s)
  let (idt, s1) ← eatIdent s
  let s2 := eatWs s1
  let s3 ← eatStr ("(") s2
  pure (idt, s.length - s3.length)

/-- The strategy (`TypeScriptStrategy.analyze`): an absent language handle
returns the empty result (lines 13-15); otherwise nodes are produced in
source order: functions, arrows, classes, the File node, Express routes,
NestJS routes, Next.js pages routes, Next.js app-router routes. -/
def tsAnalyze (tree : TsTree) (filePath : String) (language : Option Unit) :
    StrategyResult :=
  match language with
  | none => {}
  | some _ =>
    let fileContent := tree.rootText
    let isReactFile := tsDetectReactImports tree.importTexts
      || containsSub filePath (".tsx")
    let declPairs := tree.functionDecls ++ tree.arrowDecls
    let funcNodes := declPairs.map (fun q => tsProcessFunction isReactFile filePath q.1 q.2)
    let exps := declPairs.map
      (fun q => (q.1, sha1Hex ("function:" ++ q.1 ++ ":" ++ filePath)))
    let classNodes : List Node := tree.classDecls.map (fun q =>
      { id := sha1Hex ("class:" ++ q.1 ++ ":" ++ filePath),
        label := q.1, type := "Class", filePath := filePath,
        language := "TypeScript", codeSnippet := some q.2 })
    let fileId := sha1Hex ("file:" ++ filePath)
    let fileNode : Node :=
      { id := fileId, type := "File", label := lastPathSegment filePath,
        filePath := filePath, language := "TypeScript" }
    let importEdges : List Edge := tree.importTexts.map (fun raw =>
      { sourceId := fileId, targetId := stripQuotes raw, type := "IMPORTS" })
    let expressNodes : List Node := (tsExpressRoutes fileContent).map (fun q =>
      { id := sha1Hex ("api-route:" ++ q.1 ++ ":" ++ q.2 ++ ":" ++ filePath),
        label := q.2, type := "APIRoute", filePath := filePath,
        language := "TypeScript",
        metadata := some { framework := some ("Express"), httpMethod := some q.1 } })
    let nestNodes : List Node :=
      match tsControllerBase fileContent with
      | none => []
      | some base => (tsNestDecos fileContent).map (fun q =>
          let route := joinNestPath base q.2
          { id := sha1Hex ("api-route:" ++ q.1 ++ ":" ++ route ++ ":" ++ filePath),
            label := route, type := "APIRoute", filePath := filePath,
            language := "TypeScript",
            metadata := some { framework := some ("NestJS"), httpMethod := some q.1 } })
    let pagesNodes : List Node :=
      if pagesApiTest filePath then
        let route := normalizeApiPath filePath ("pages/api")
        [{ id := sha1Hex ("api-route:ANY:" ++ route ++ ":" ++ filePath),
           label := route, type := "APIRoute", filePath := filePath,
           language := "TypeScript",
           metadata := some { framework := some ("Next.js") } }]
      else []
    let appNodes : List Node :=
      if appApiTest filePath && routeFileTest filePath then
        let route := normalizeApiPath filePath ("app/api")
        let methods := tsExportedMethods fileContent
        let uniq := if methods.isEmpty then [("ANY")] else dedupKeepFirst methods
        uniq.map (fun mth =>
          { id := sha1Hex ("api-route:" ++ mth ++ ":" ++ route ++ ":" ++ filePath),
            label := route, type := "APIRoute", filePath := filePath,
            language := "TypeScript",
            metadata := some { framework := some ("Next.js"), httpMethod := some mth } })
      else []
    { nodes := funcNodes ++ classNodes ++ [fileNode] ++ expressNodes ++ nestNodes
        ++ pagesNodes ++ appNodes,
      edges := importEdges,
      exports := exps,
      calls := (scanAll callAt fileContent).map (fun q => q.2.2) }

/-! PHP strategy (`PHPStrategy.analyze`).  The tree is modelled as the
data of the strategy's tree-sitter queries: class declarations, method
declarations and function definitions (name plus enclosing declaration
text) and the qualified names of `use` declarations. -/

/-- Model of the tree-sitter tree consumed by the PHP strategy. -/
structure PhpTree where
  rootText : String := ""
  classDecls : List (String × String) := []
  methodDecls : List (String × String) := []
  funcDecls : List (String × String) := []
  useDecls : List String := []
  deriving Repr

/-- Laravel detection (`detectLaravelPatterns`): framework imports, or
framework markers in the raw text. -/
def phpDetectLaravel (tree : PhpTree) : Bool :=
  tree.useDecls.any (fun ns =>
    sStartsWith ns ("Illuminate\\") || sStartsWith ns ("App\\")
      || containsSub ns ("Laravel") || containsSub ns ("Eloquent")) ||
  (containsSub tree.rootText ("extends Controller")
    || containsSub tree.rootText ("extends Model")
    || containsSub tree.rootText ("extends Middleware")
    || containsSub tree.rootText ("Route::")
    || containsSub tree.rootText ("DB::")
    || containsSub tree.rootText ("Cache::")
    || containsSub tree.rootText ("Log::"))

/-- The Laravel resource-route method names (`isLaravelRouteMethod`). -/
def phpIsLaravelRouteMethod (methodName : String) : Bool :=
  [("index"), ("show"), ("create"), ("store"), ("edit"), ("update"),
   ("destroy")].contains methodName

/-- HTTP verb derived from a resource-route method name (`detectHttpMethod`). -/
def phpDetectHttpMethod (methodName : String) : String :=
  if methodName == "index" then "GET"
  else if methodName == "show" then "GET"
  else if methodName == "create" then "GET"
  else if methodName == "store" then "POST"
  else if methodName == "edit" then "GET"
  else if methodName == "update" then "PUT"
  else if methodName == "destroy" then "DELETE"
  else "GET"

/-- Case-insensitive literal consume (for patterns under `/i`).  A short
input makes the taken block shorter than the literal and the comparison
fail, so no separate length guard is needed. -/
def eatStrCI (lit : String) (s : List Char) : Option (List Char) :=
  let n := lit.toList.length
  if (s.take n).map lowerChar == lit.toList.map lowerChar then some (s.drop n)
  else none

/-- Case-insensitive literal alternation; returns the canonical literal. -/
def eatAltLitCI (lits : List String) (s : List Char) : Option (String × List Char) :=
  match lits with
  | [] => none
  | l :: rest =>
    match eatStrCI l s with
    | some t => some (l, t)
    | none => eatAltLitCI rest s

/-- Test of `/\broutes\/(api|web)\.php$/` on a file path. -/
def phpRouteFileTest (fp : String) : Bool :=
  let l := fp.toList
  let tryOne := fun (suf : String) =>
    listIsSuffix suf.toList l &&
      boundaryAt ((l.take (l.length - suf.length)).getLast?)
        (l.drop (l.length - suf.length))
  tryOne ("routes/api.php") || tryOne ("routes/web.php")

/-- Scanner for the Laravel route pattern
`/Route::(get|post|put|patch|delete)\s*\(\s*['"\x60]([^'"\x60]+)['"\x60]/gi`.
Matched method text differs from the canonical literal only in case, and
the source upper-cases it, so returning the canonical literal is exact. -/
def phpRouteAt (_ : Option Char) (s : List Char) : Option ((String × String) × Nat) := do
  let s1 ← eatStrCI ("Route::") s
  let (method, s2) ← eatAltLitCI [("get"), ("post"), ("put"), ("patch"), ("delete")] s1
  let s3 := eatWs s2
  let s4 ← eatStr ("(") s3
  let s5 := eatWs s4
  match s5 with
  | q :: s6 =>
    if isQuoteChar q then do
      let (route, s7) ← eatClass1 (fun c => !(isQuoteChar c)) s6
      match s7 with
      | q2 :: s8 =>
        if isQuoteChar q2 then pure ((sToUpper method, route), s.length - s8.length)
        else none
      | [] => none
    else none
  | [] => none

/-- All Laravel route-file matches `(METHOD, route)` of a file text. -/
def phpRouteMatches (text : String) : List (String × String) :=
  (scanAll phpRouteAt text).map (fun q => q.2.2)

/-- The database-interaction marker strings of `detectDatabaseInteractions`. -/
def phpDbPatterns : List String :=
  [("DB::table"), ("DB::select"), ("DB::insert"), ("DB::update"), ("DB::delete"),
   ("Cache::get"), ("Cache::put"), ("Cache::forget"), ("Cache::remember"),
   ("->where("), ("->orderBy("), ("->join("), ("->paginate("), ("->get()"),
   ("->first()"), ("->create("), ("->save()"), ("->update("), ("->delete()"),
   ("->destroy(")]

/-- The `extractDbOperation` helper. -/
def phpExtractDbOperation (pat : String) : String :=
  if containsSub pat ("select") || containsSub pat ("get") || containsSub pat ("first") then
    "READ"
  else if containsSub pat ("insert") || containsSub pat ("create")
    || containsSub pat ("save") then "CREATE"
  else if containsSub pat ("update") then "UPDATE"
  else if containsSub pat ("delete") || containsSub pat ("destroy") then "DELETE"
  else if containsSub pat ("Cache") then "CACHE"
  else "QUERY"

/-- The strategy (`PHPStrategy.analyze`), nodes in source push order:
Laravel route-file routes, classes, methods, functions, database
interaction components, the File node; `use` declarations become IMPORTS
edges from the File node. -/
def phpAnalyze (tree : PhpTree) (filePath : String) : StrategyResult :=
  let isLaravelFile := phpDetectLaravel tree
  let routeNodes : List Node :=
    if phpRouteFileTest filePath then
      (phpRouteMatches tree.rootText).map (fun q =>
        { id := sha1Hex ("api-route:" ++ q.1 ++ ":" ++ q.2 ++ ":" ++ filePath),
          label := q.2, type := "APIRoute", filePath := filePath,
          language := "PHP",
          metadata := some { framework := some ("Laravel"), httpMethod := some q.1 } })
    else []
  let classNodes : List Node := tree.classDecls.map (fun q =>
    let className := q.1
    let isController := containsSub className ("Controller")
    let isModel := isLaravelFile &&
      (containsSub q.2 ("extends Model") || containsSub q.2 ("extends Eloquent"))
    let isMiddleware := containsSub className ("Middleware")
    let comp :=
      if isController && isLaravelFile then
        some ("controller")
      else if isModel then some ("model")
      else if isMiddleware && isLaravelFile then some ("middleware")
      else none
    { id := sha1Hex ("class:" ++ className ++ ":" ++ filePath),
      label := className,
      type := if comp.isSome then "Component" else "Class",
      filePath := filePath, language := "PHP", codeSnippet := some q.2,
      metadata := comp.map (fun k =>
        { framework := some ("Laravel"), componentType := some k }) })
  let methodNodes : List Node := tree.methodDecls.map (fun q =>
    let methodName := q.1
    let isRouteMethod := isLaravelFile && phpIsLaravelRouteMethod methodName
    { id := sha1Hex ("method:" ++ methodName ++ ":" ++ filePath),
      label := methodName,
      type := if isRouteMethod then "APIRoute" else "Function",
      filePath := filePath, language := "PHP", codeSnippet := some q.2,
      metadata :=
        if isRouteMethod then
          some { framework := some ("Laravel"), handlerMethod := some methodName,
                 httpMethod := some (phpDetectHttpMethod methodName) }
        else none })
  let funcNodes : List Node := tree.funcDecls.map (fun q =>
    { id := sha1Hex ("function:" ++ q.1 ++ ":" ++ filePath),
      label := q.1, type := "Function", filePath := filePath,
      language := "PHP", codeSnippet := some q.2 })
  let dbNodes : List Node := phpDbPatterns.filterMap (fun pat =>
    if containsSub tree.rootText pat then
      let dbType := if containsSub pat ("Cache") then "cache" else "database"
      some { id := sha1Hex ("db-interaction:" ++ pat ++ ":" ++ filePath),
             label := sToUpper dbType ++ " " ++ phpExtractDbOperation pat,
             type := "Component", filePath := filePath, language := "PHP",
             metadata := some
               { framework := some (if isLaravelFile then "Laravel" else "PHP") } }
    else none)
  let fileId := sha1Hex ("file:" ++ filePath)
  let fileNode : Node :=
    { id := fileId, type := "File", label := lastPathSegment filePath,
      filePath := filePath, language := "PHP",
      metadata := if isLaravelFile then some { framework := some ("Laravel") } else none }
  { nodes := routeNodes ++ classNodes ++ methodNodes ++ funcNodes ++ dbNodes ++ [fileNode],
    edges := tree.useDecls.map (fun ns =>
      { sourceId := fileId, targetId := ns, type := "IMPORTS" }) }

/-! Environment-variable substitution in extracted URLs
(`InteractionAnalyzer.loadDotEnv` and `resolveEnvInUrl`). -/

/-- The name class `[A-Z0-9_]` under the `/i` flag. -/
def isEnvNameChar (c : Char) : Bool := isAsciiAlphaNum c || c == '_'

/-- Lookup `env[k] || ''`; bindings are kept latest-first, matching the
last-assignment-wins behaviour of the loader's object writes. -/
def envLookupOr (env : List (String × String)) (k : String) : String :=
  match (env.find? (fun p => p.1 == k)).map Prod.snd with
  | some v => v
  | none => ""

/-- Parse of one occurrence of `/\$\{\s*process\.env\.([A-Z0-9_]+)\s*\}/gi`,
returning the captured name and the match length. -/
def envBracesParse (_ : Option Char) (s : List Char) : Option (String × Nat) := do
  let s1 ← eatStr ("$" ++ String.mk [braceL]) s
  let s2 := eatWs s1
  let s3 ← eatStrCI ("process.env.") s2
  let (nm, s4) ← eatClass1 isEnvNameChar s3
  let s5 := eatWs s4
  let s6 ← eatStr (String.mk [braceR]) s5
  pure (nm, s.length - s6.length)

/-- Scanner for the braced form with its replacement callback
`(_, k) => env[k] || ''`. -/
def envBracesAt (env : List (String × String)) (p : Option Char) (s : List Char) :
    Option (String × Nat) :=
  (envBracesParse p s).map (fun q => (envLookupOr env q.1, q.2))

/-- Parse of one occurrence of `/process\.env\.([A-Z0-9_]+)/gi`. -/
def envPlainParse (_ : Option Char) (s : List Char) : Option (String × Nat) := do
  let s1 ← eatStrCI ("process.env.") s
  let (nm, s2) ← eatClass1 isEnvNameChar s1
  pure (nm, s.length - s2.length)

/-- Scanner for the bare form with its replacement callback. -/
def envPlainAt (env : List (String × String)) (p : Option Char) (s : List Char) :
    Option (String × Nat) :=
  (envPlainParse p s).map (fun q => (envLookupOr env q.1, q.2))

/-- Worker of `String.replace` with a global pattern: left-to-right
non-overlapping replacement, the replacement text is not rescanned. -/
def replaceScanAux (f : Option Char → List Char → Option (String × Nat)) :
    Nat → Option Char → List Char → List Char → List Char
  | 0, _, s, acc => acc.reverse ++ s
  | fuel + 1, p, s, acc =>
    match f p s with
    | some (rep, consumed) =>
      if consumed == 0 then
        match s with
        | [] => (rep.toList.reverse ++ acc).reverse
        | c :: t => replaceScanAux f fuel (some c) t (c :: (rep.toList.reverse ++ acc))
      else
        replaceScanAux f fuel ((s.take consumed).getLast? <|> p) (s.drop consumed)
          (rep.toList.reverse ++ acc)
    | none =>
      match s with
      | [] => acc.reverse
      | c :: t => replaceScanAux f fuel (some c) t (c :: acc)

/-- Global replace over a string. -/
def replaceScan (f : Option Char → List Char → Option (String × Nat)) (s : String) :
    String :=
  String.mk (replaceScanAux f (s.toList.length + 1) none s.toList [])

/-- The `resolveEnvInUrl` helper: substitute the braced form first, then
the bare form, each occurrence becoming `env[name] || ''`. -/
def resolveEnvInUrl (url : String) (env : List (String × String)) : String :=
  replaceScan (envPlainAt env) (replaceScan (envBracesAt env) url)

/-- Parse of one `.env` line against `/^([A-Z0-9_]+)=(.*)$/` after `trim`
(this pattern has no `/i`: names are upper-case letters, digits and
underscores only). -/
def dotEnvLine (line : String) : Option (String × String) :=
  let t := (trimAscii line).toList
  let nm := t.takeWhile (fun c =>
    ('A' ≤ c && c ≤ 'Z') || ('0' ≤ c && c ≤ '9') || c == '_')
  let rest := t.dropWhile (fun c =>
    ('A' ≤ c && c ≤ 'Z') || ('0' ≤ c && c ≤ '9') || c == '_')
  match rest with
  | '=' :: v => if nm.isEmpty then none else some (String.mk nm, String.mk v)
  | _ => none

/-- The `loadDotEnv` helper over the optional content of the repository
root `.env` (`none` when the file does not exist).  Lines are split on
`\r?\n`; later bindings overwrite earlier ones (kept latest-first). -/
def loadDotEnv (content : Option String) : List (String × String) :=
  match content with
  | none => []
  | some text =>
    let lines := (sSplitOnChar ('\n') text).map (fun l =>
      if sEndsWith l (String.mk ['\r']) then sDropRight l 1 else l)
    lines.foldl (fun acc l =>
      match dotEnvLine l with
      | some kv => kv :: acc
      | none => acc) []

/-! Per-file control flow of the orchestrator (`analyzeFile`, worker loop
of `analyzeProject`): error propagation is the object of study, so file
reads, parses and strategies are boundary parameters. -/

/-- Boundary capabilities used by `Orchestrator.analyzeFile`:
`grammarFor` is `ParserFactory.getParserForFile`, `readFile` is
`readFileSync` (with `none` modelling a thrown read error), `parseOk`
tells whether `parser.parse` succeeds (a failure falls back to the stub
tree inside the try/catch), and `strategyFor` is the strategy map; a
strategy receives the file path, the raw content and whether a real tree
with a language handle is available. -/
structure AnalyzeEnv (α : Type) where
  grammarFor : String → Option Unit
  readFile : String → Option String
  parseOk : String → String → Bool
  strategyFor : String → Option (String → String → Bool → α)

/-- The body of `analyzeFile` (orchestrator.ts lines 185-211): the call to
`readFileSync` sits outside every try/catch, so a read failure escapes as
`Except.error`; parse failures are caught and produce the stub tree. -/
def analyzeFileM {α : Type} (env : AnalyzeEnv α) (filePath : String) :
    Except Unit (Option α) :=
  let parser := env.grammarFor filePath
  match env.readFile filePath with
  | none => Except.error ()
  | some content =>
    let hasTree :=
      match parser with
      | some _ => env.parseOk filePath content
      | none => false
    match getLanguageFromExtension filePath with
    | none => Except.ok none
    | some lang =>
      match env.strategyFor lang with
      | none => Except.ok none
      | some strat => Except.ok (some (strat filePath content hasTree))

/-- The worker loop of `analyzeProject` (lines 92-104): each file is
analyzed in turn and an uncaught exception rejects the worker promise, so
`Promise.all` rejects and `analyzeProject` does not complete. -/
def workerLoop {α : Type} (env : AnalyzeEnv α) :
    List String → List α → Except Unit (List α)
  | [], acc => Except.ok acc
  | p :: rest, acc =>
    match analyzeFileM env p with
    | Except.error e => Except.error e
    | Except.ok none => workerLoop env rest acc
    | Except.ok (some r) => workerLoop env rest (acc ++ [r])

/-- The extraction phase of `analyzeProject` over a discovered path list. -/
def analyzeProjectRuns {α : Type} (env : AnalyzeEnv α) (paths : List String) :
    Except Unit (List α) :=
  workerLoop env paths []

/-! Terraform strategy (`TerraformStrategy.analyze`): a raw-text strategy,
regex scans over `ast.rootNode.text`. -/

/-- Consume a double-quoted chunk `"([^"]+)"`. -/
def eatQuotedD (s : List Char) : Option (String × List Char) :=
  match s with
  | c :: s1 =>
    if c == quoteD then
      match eatClass1 (fun x => !(x == quoteD)) s1 with
      | some (name, s2) =>
        match s2 with
        | q :: s3 => if q == quoteD then some (name, s3) else none
        | [] => none
      | none => none
    else none
  | [] => none

/-- Scanner for `/provider\s+"([^"]+)"/g`. -/
def providerAt (_ : Option Char) (s : List Char) : Option (String × Nat) := do
  let s1 ← eatStr ("provider") s
  let s2 ← eatWs1 s1
  let (name, s3) ← eatQuotedD s2
  pure (name, s.length - s3.length)

/-- Scanner for `/resource\s+"([^"]+)"\s+"([^"]+)"/g`. -/
def resourceAt (_ : Option Char) (s : List Char) : Option ((String × String) × Nat) := do
  let s1 ← eatStr ("resource") s
  let s2 ← eatWs1 s1
  let (rt, s3) ← eatQuotedD s2
  let s4 ← eatWs1 s3
  let (rn, s5) ← eatQuotedD s4
  pure ((rt, rn), s.length - s5.length)

/-- Leftmost position at which a parser succeeds (the lazy `[\s\S]*?`). -/
def seekFirst {α : Type} (f : List Char → Option α) : List Char → Option α
  | [] => f []
  | s@(_ :: t) =>
    match f s with
    | some a => some a
    | none => seekFirst f t

/-- The `source = "..."` part of a module block. -/
def tfSourceParse (s : List Char) : Option (String × List Char) := do
  let s1 ← eatStr ("source") s
  let s2 := eatWs s1
  let s3 ← eatStr ("=") s2
  let s4 := eatWs s3
  eatQuotedD s4

/-- Scanner for
`/module\s+"([^"]+)"\s*\x7b[\s\S]*?source\s*=\s*"([^"]+)"[\s\S]*?\x7d/g`. -/
def moduleAt (_ : Option Char) (s : List Char) : Option ((String × String) × Nat) := do
  let s1 ← eatStr ("module") s
  let s2 ← eatWs1 s1
  let (name, s3) ← eatQuotedD s2
  let s4 := eatWs s3
  let s5 ← (match s4 with
            | c :: t => if c == braceL then some t else none
            | [] => none)
  let (src, s6) ← seekFirst tfSourceParse s5
  let s7 := s6.dropWhile (fun c => !(c == braceR))
  match s7 with
  | _ :: s8 => pure ((name, src), s.length - s8.length)
  | [] => none

/-- The Terraform strategy.  Resource, provider and module nodes carry no
`codeSnippet` field in the source push calls; the File node comes last,
and module blocks with a local source contribute a raw-target REFERENCES
edge. -/
def tfStrategyAnalyze (text filePath : String) : StrategyResult :=
  let providerNodes : List Node := (scanAll providerAt text).map (fun q =>
    { id := sha1Hex ("tf-provider:" ++ q.2.2 ++ ":" ++ filePath ++ ":" ++ toString q.1),
      label := "provider:" ++ q.2.2, type := "Component", filePath := filePath,
      language := "Terraform", metadata := some { kind := some ("provider") } })
  let resourceNodes : List Node := (scanAll resourceAt text).map (fun q =>
    { id := sha1Hex ("tf-resource:" ++ q.2.2.1 ++ ":" ++ q.2.2.2 ++ ":" ++ filePath
        ++ ":" ++ toString q.1),
      label := q.2.2.1 ++ "." ++ q.2.2.2, type := "Component", filePath := filePath,
      language := "Terraform",
      metadata := some { kind := some ("resource"), resourceType := some q.2.2.1,
                         resourceName := some q.2.2.2 } })
  let moduleMatches := scanAll moduleAt text
  let moduleNodes : List Node := moduleMatches.map (fun q =>
    { id := sha1Hex ("tf-module:" ++ q.2.2.1 ++ ":" ++ filePath ++ ":" ++ toString q.1),
      label := "module:" ++ q.2.2.1, type := "Component", filePath := filePath,
      language := "Terraform", metadata := some { kind := some ("module") } })
  let moduleEdges : List Edge := moduleMatches.filterMap (fun q =>
    if sStartsWith q.2.2.2 (".") || sStartsWith q.2.2.2 ("/") then
      some { sourceId := sha1Hex ("tf-module:" ++ q.2.2.1 ++ ":" ++ filePath
               ++ ":" ++ toString q.1),
             targetId := q.2.2.2, type := "REFERENCES" }
    else none)
  let fileNode : Node :=
    { id := sha1Hex ("file:" ++ filePath), type := "File",
      label := lastPathSegment filePath, filePath := filePath,
      language := "Terraform" }
  { nodes := providerNodes ++ resourceNodes ++ moduleNodes ++ [fileNode],
    edges := moduleEdges }

/-! Concrete inputs for the claim theorems. -/

/-- The post-merge linkage passes embedded here, composed in orchestrator
order (lines 127-163): DB lineage, ORM, Terraform, GraphQL SDL, then the
APIRoute dedupe.  The Kubernetes and Helm/Kustomize passes in between read
only YAML-language nodes and are the identity on the maps these theorems
evaluate (none of them contains a YAML node); the code-quality step
computes statistics and does not touch nodes or edges. -/
def pipelineTail (m : CodeMap) : CodeMap :=
  dedupeAPIRoutes (analyzeGraphQLSDL (analyzeTerraform (analyzeORM (analyzeDBLineage m))))

/-- Express backend registering the same route twice (legal JavaScript),
for the dedupe analysis. -/
def c2Tree : TsTree := { rootText := "app.get(\"/x\", a)\napp.get(\"/x\", b)" }

/-- Map merged from the double-registration file. -/
def c2Map : CodeMap :=
  { nodes := (tsAnalyze c2Tree ("server.ts") (some ())).nodes,
    edges := (tsAnalyze c2Tree ("server.ts") (some ())).edges }

/-- First APIRoute node with a given dedupe key, in encounter order. -/
def firstRoute (nodes : List Node) (k : String) : Option Node :=
  nodes.find? (fun n => n.type == "APIRoute" && routeKey n == k)

/-- PHP file with two controller classes both defining the Laravel
resource-route method `index`; the first one's body mentions a prisma
read. -/
def c3Tree : PhpTree :=
  { rootText := "class UserController extends Controller ... class AdminController extends Controller ...",
    classDecls := [(("UserController"), ("class UserController extends Controller ...")),
                   (("AdminController"), ("class AdminController extends Controller ..."))],
    methodDecls := [(("index"), ("public function index() \x7b return prisma.user.findMany(1) \x7d")),
                    (("index"), ("public function index() \x7b return all() \x7d"))] }

/-- Map merged from the PHP file. -/
def c3Map : CodeMap :=
  { nodes := (phpAnalyze c3Tree ("app/Http/Controllers.php")).nodes,
    edges := (phpAnalyze c3Tree ("app/Http/Controllers.php")).edges }

/-- Final map of the C3 run. -/
def c3Final : CodeMap := pipelineTail c3Map

/-- A TypeScript tree whose queries found declarations, for the
no-grammar branch. -/
def c4Tree : TsTree :=
  { rootText := "export function f() \x7b return 1 \x7d",
    functionDecls := [(("f"), ("export function f() \x7b return 1 \x7d"))] }

/-- Next.js App Router file exporting GET and POST handlers. -/
def c7Text : String :=
  "export async function GET(req) \x7b return ok \x7d\nexport async function POST(req) \x7b return ok \x7d"

/-- Tree for the App Router file: the two handlers are also function
declarations found by the function query. -/
def c7Tree : TsTree :=
  { rootText := c7Text,
    functionDecls := [(("GET"), ("export async function GET(req) \x7b return ok \x7d")),
                      (("POST"), ("export async function POST(req) \x7b return ok \x7d"))] }

/-- The App Router path. -/
def c7Path : String := "app/api/users/route.ts"

/-- Map merged from the App Router file. -/
def c7Map : CodeMap :=
  { nodes := (tsAnalyze c7Tree c7Path (some ())).nodes,
    edges := (tsAnalyze c7Tree c7Path (some ())).edges }

/-- Final map of the C7 run. -/
def c7Final : CodeMap := pipelineTail c7Map

/-- The loop snippet of the N+1 scenario. -/
def c8Code : String := "for(const u of us)\x7b db.users.Find(u.id) \x7d"

/-- The Function node carrying the loop snippet. -/
def c8Node : Node :=
  { id := sha1Hex ("function:load:src/LoadUsersService.ts"), label := "load",
    type := "Function", filePath := "src/LoadUsersService.ts",
    language := "TypeScript", codeSnippet := some c8Code }

/-- Map with the single function node of the N+1 scenario. -/
def c8Map : CodeMap := { nodes := [c8Node] }

/-- Terraform file: two resources, the second depending on the first. -/
def c9Text : String :=
  "resource \"aws_s3_bucket\" \"b\" \x7b\x7d\nresource \"aws_instance\" \"i\" \x7b\n  depends_on = [aws_s3_bucket.b]\n\x7d"

/-- Strategy output for the Terraform file. -/
def c9Res : StrategyResult := tfStrategyAnalyze c9Text ("main.tf")

/-- Map merged from the Terraform file. -/
def c9Map : CodeMap := { nodes := c9Res.nodes, edges := c9Res.edges }

/-- Boundary environment in which reading `a.ts` fails and every other
read succeeds; every language has a trivial strategy. -/
def c5Env : AnalyzeEnv Unit :=
  { grammarFor := fun _ => none,
    readFile := fun p => if p == "a.ts" then none else some ("x"),
    parseOk := fun _ _ => true,
    strategyFor := fun _ => some (fun _ _ _ => ()) }

/-- First of two APIRoute nodes sharing the dedupe key `s.ts::/x` but
carrying distinct ids (as offset-bearing ids would). -/
def c2bN1 : Node :=
  { id := "r1", type := "APIRoute", label := "/x", filePath := "s.ts",
    language := "TypeScript" }

/-- Second, duplicate APIRoute node for the key `s.ts::/x`. -/
def c2bN2 : Node :=
  { id := "r2", type := "APIRoute", label := "/x", filePath := "s.ts",
    language := "TypeScript" }

/-- An edge targeting the duplicate route node. -/
def c2bEdge : Edge := { sourceId := "fn:f:a.ts", targetId := "r2", type := "API_CALL" }

/-- Map with distinct-id duplicate routes and an edge to the duplicate. -/
def c2bMap : CodeMap := { nodes := [c2bN1, c2bN2], edges := [c2bEdge] }

set_option maxRecDepth 4096

/-- C1.  The claim says two complete runs over the same inputs produce
byte-identical JSON and that the emitted CodeMap, its `generatedAt` stamp
included, is a deterministic function of the inputs alone.  The stamp is
`new Date().toISOString()`: finalizing the same merged map at two clock
readings yields different CodeMaps, refuting determinism in the inputs
alone. -/
theorem C1_counterexample :
    ¬ (finalizeCodeMap ("2024-01-01T00:00:00.000Z") none {} =
       finalizeCodeMap ("2024-01-02T00:00:00.000Z") none {}) := by
  decide

/-- C1 amended.  The finalized map is a deterministic function of the
merged map, the clock reading and the git commit: nodes and edges do not
depend on the clock, `version` and `generator` are constants, and
`generatedAt`/`commit` are exactly the clock and git inputs. -/
theorem C1_amended_stamp (m : CodeMap) (t1 t2 : String) (c : Option String) :
    (finalizeCodeMap t1 c m).nodes = (finalizeCodeMap t2 c m).nodes ∧
    (finalizeCodeMap t1 c m).edges = (finalizeCodeMap t2 c m).edges ∧
    (finalizeCodeMap t1 c m).generatedAt = some t1 ∧
    (finalizeCodeMap t1 c m).version = some ("1.0.0") ∧
    (finalizeCodeMap t1 c m).generator = some ("@docufy/core") ∧
    (finalizeCodeMap t1 c m).commit = c :=
  ⟨rfl, rfl, rfl, rfl, rfl, rfl⟩

/-- C2.  The claim says that for each `(filePath, label)` key among
APIRoute nodes exactly one canonical node survives the dedupe.  Register
the same Express route twice: both nodes share the offset-free id, the
dedupe puts that id in the removal set and then filters out both nodes,
so zero nodes survive for the key. -/
theorem C2_counterexample :
    ((c2Map.nodes.filter
        (fun n => n.type == "APIRoute" && routeKey n == "server.ts::/x")).length = 2) ∧
    (((dedupeAPIRoutes c2Map).nodes.filter
        (fun n => n.type == "APIRoute" && routeKey n == "server.ts::/x")).length = 0) := by
  decide

/-- C3.  Spec invariant I1 says every edge's `sourceId` is a node id after
pipeline completion.  On the two-controller PHP file, the ORM pass sources
a `READS_FROM` edge at the duplicated `index` APIRoute id, and the dedupe
then removes both nodes with that id: the final map carries an edge whose
`sourceId` matches no node, while the pre-dedupe map carried two. -/
theorem C3_divergence_eval :
    ((⟨"method:index:app/Http/Controllers.php", "table:user", "READS_FROM"⟩ : Edge)
        ∈ c3Final.edges) ∧
    (c3Final.nodes.all
        (fun n => !(n.id == "method:index:app/Http/Controllers.php")) = true) ∧
    ((c3Map.nodes.filter
        (fun n => n.id == "method:index:app/Http/Controllers.php")).length = 2) ∧
    (c3Final.edges.any
        (fun e => c3Final.nodes.all (fun n => !(n.id == e.sourceId))) = true) := by
  decide

/-- C4.  The claim says a file whose parser provider returns no grammar
still yields exactly one File node from the strategy.  The TypeScript
strategy invoked without a language handle returns no nodes at all. -/
theorem C4_counterexample :
    ((tsAnalyze c4Tree ("src/a.ts") none).nodes = []) ∧
    ¬ (((tsAnalyze c4Tree ("src/a.ts") none).nodes.filter
         (fun n => n.type == "File")).length = 1) := by
  decide

/-- C4 amended.  A tree-requiring strategy invoked without a grammar
returns the empty result — no File node, no AST-derived constructs — for
every tree and path; a raw-text strategy (Terraform) emits exactly one
File node for every text and path. -/
theorem C4_amended_fallback :
    (∀ (tree : TsTree) (fp : String), tsAnalyze tree fp none = {}) ∧
    (∀ (text fp : String),
      ((tfStrategyAnalyze text fp).nodes.filter (fun n => n.type == "File")).length = 1) := by
  refine ⟨fun tree fp => rfl, fun text fp => ?_⟩
  have h1 : ∀ {β : Type} (l : List β) (mk : β → Node),
      (∀ b, (mk b).type = "Component") →
      (l.map mk).filter (fun n => n.type == "File") = [] := by
    intro β l mk hmk
    induction l with
    | nil => rfl
    | cons x t ih => simp [List.filter_cons, hmk, ih]
  simp only [tfStrategyAnalyze, List.filter_append, List.length_append]
  rw [h1 _ _ (fun b => rfl), h1 _ _ (fun b => rfl), h1 _ _ (fun b => rfl)]
  rfl

/-- C5.  The claim says a file-read failure skips the file and the
pipeline still completes.  With the read of `a.ts` failing, the extraction
phase of `analyzeProject` rejects instead of returning a best-effort map —
although analyzing each of the other files on its own succeeds. -/
theorem C5_counterexample :
    (analyzeProjectRuns c5Env [("ok.ts"), ("a.ts"), ("b.ts")] = Except.error ()) ∧
    (analyzeFileM c5Env ("ok.ts") = Except.ok (some ())) ∧
    (analyzeFileM c5Env ("b.ts") = Except.ok (some ())) :=
  ⟨rfl, rfl, rfl⟩

/-- C5 amended.  When every discovered file can be read, the extraction
phase completes with a result list: only parse errors are swallowed (they
fall back to the stub tree inside `analyzeFile`'s try/catch), while a read
error always escapes. -/
theorem C5_amended_halt {α : Type} (env : AnalyzeEnv α) (paths : List String)
    (h : ∀ p ∈ paths, (env.readFile p).isSome) :
    ∃ rs, analyzeProjectRuns env paths = Except.ok rs := by
  have H : ∀ (ps : List String), (∀ p ∈ ps, (env.readFile p).isSome) →
      ∀ acc, ∃ rs, workerLoop env ps acc = Except.ok rs := by
    intro ps
    induction ps with
    | nil => exact fun _ acc => ⟨acc, rfl⟩
    | cons p rest ih =>
      intro hall acc
      have hp := hall p (List.mem_cons_self p rest)
      have hrest : ∀ q ∈ rest, (env.readFile q).isSome :=
        fun q hq => hall q (List.mem_cons_of_mem p hq)
      have hne : ∀ e, analyzeFileM env p ≠ Except.error e := by
        intro e hcontra
        obtain ⟨content, hread⟩ := Option.isSome_iff_exists.mp hp
        simp only [analyzeFileM, hread] at hcontra
        split at hcontra
        · exact Except.noConfusion hcontra
        · split at hcontra
          · exact Except.noConfusion hcontra
          · exact Except.noConfusion hcontra
      cases hres : analyzeFileM env p with
      | error e => exact absurd hres (hne e)
      | ok r =>
        cases r with
        | none =>
          obtain ⟨rs, hrs⟩ := ih hrest acc
          exact ⟨rs, by simp only [workerLoop, hres]; exact hrs⟩
        | some v =>
          obtain ⟨rs, hrs⟩ := ih hrest (acc ++ [v])
          exact ⟨rs, by simp only [workerLoop, hres]; exact hrs⟩
  exact H paths h []

/-- C5 witness: a run whose reads all succeed completes. -/
theorem C5_amended_halt_witness :
    ∃ rs, analyzeProjectRuns c5Env [("b.ts"), ("c.py")] = Except.ok rs :=
  C5_amended_halt c5Env [("b.ts"), ("c.py")] (by decide)

/-- C6.  The glob extension whitelist of discovery (orchestrator.ts line
54) omits `tsx` and `jsx`, so a `.tsx`/`.jsx` file matching the include
patterns is never discovered, although the orchestrator's own language
map handles both extensions (and plain `.ts` is discovered). -/
theorem C6_divergence_eval :
    (globExtMatch ("src/App.tsx") = false) ∧
    (globExtMatch ("src/App.jsx") = false) ∧
    (extensionsGlob.contains ("tsx") = false) ∧
    (extensionsGlob.contains ("jsx") = false) ∧
    (getLanguageFromExtension ("src/App.tsx") = some ("TypeScript")) ∧
    (getLanguageFromExtension ("src/App.jsx") = some ("JavaScript")) ∧
    (globExtMatch ("src/App.ts") = true) := by
  decide

/-- C7.  The claim expects two APIRoute nodes labeled `/users` in the final
map.  The strategy does extract both (GET and POST), but they share the
`(filePath, label)` dedupe key, so the final map does not contain two. -/
theorem C7_counterexample :
    ((c7Map.nodes.filter
        (fun n => n.type == "APIRoute" && n.label == "/users")).length = 2) ∧
    ¬ ((c7Final.nodes.filter
        (fun n => n.type == "APIRoute" && n.label == "/users")).length = 2) := by
  decide

/-- C7 amended.  Pre-dedupe the two route nodes carry httpMethod GET and
POST in encounter order; the final map keeps exactly the first: one
APIRoute labeled `/users` with framework Next.js and httpMethod GET. -/
theorem C7_amended_route :
    ((c7Map.nodes.filter (fun n => n.type == "APIRoute" && n.label == "/users")).map
        (fun n => n.metadata.bind Metadata.httpMethod) = [some ("GET"), some ("POST")]) ∧
    ((c7Final.nodes.filter (fun n => n.type == "APIRoute" && n.label == "/users")) =
      [{ id := "api-route:GET:/users:app/api/users/route.ts", label := "/users",
         type := "APIRoute", filePath := c7Path, language := "TypeScript",
         metadata := some { framework := some ("Next.js"), httpMethod := some ("GET") } }]) := by
  decide

/-- C8.  The claim expects `dbQueriesInLoops.count == 1` for the loop
`for(const u of us){ db.users.Find(u.id) }`; none of the seven DB-query
patterns matches that body, so the count is 0. -/
theorem C8_counterexample :
    (statsDBLoops c8Map = []) ∧
    ¬ ((statsDBLoops c8Map).length = 1) := by
  decide

/-- C8 amended.  On that snippet the N+1 detector counts exactly one issue
(whose functionName is the node's label) and the DB-in-loops detector
counts zero. -/
theorem C8_amended_counts :
    (statsNPlusOne c8Map = [⟨("src/LoadUsersService.ts"), ("load")⟩]) ∧
    ((statsNPlusOne c8Map).length = 1) ∧
    (statsDBLoops c8Map = []) := by
  decide

/-- Helper: `takeWhile` walks through a block that satisfies the predicate. -/
theorem takeWhile_all_append {p : Char → Bool} :
    ∀ (l₁ l₂ : List Char), l₁.all p → (l₁ ++ l₂).takeWhile p = l₁ ++ l₂.takeWhile p := by
  intro l₁ l₂ h
  induction l₁ with
  | nil => rfl
  | cons c t ih =>
    simp only [List.all_cons, Bool.and_eq_true] at h
    simp [List.takeWhile_cons, h.1, ih h.2]

/-- Helper: `dropWhile` walks through a block that satisfies the predicate. -/
theorem dropWhile_all_append {p : Char → Bool} :
    ∀ (l₁ l₂ : List Char), l₁.all p → (l₁ ++ l₂).dropWhile p = l₂.dropWhile p := by
  intro l₁ l₂ h
  induction l₁ with
  | nil => rfl
  | cons c t ih =>
    simp only [List.all_cons, Bool.and_eq_true] at h
    simp [List.dropWhile_cons, h.1, ih h.2]

/-- Helper: a replace scan over a string none of whose suffixes matches is
the identity. -/
theorem replaceScanAux_no_match (f : Option Char → List Char → Option (String × Nat))
    (hp : ∀ p₁ p₂ s', f p₁ s' = f p₂ s') :
    ∀ (s : List Char), (∀ n : Nat, f none (s.drop n) = none) →
    ∀ fuel p acc, replaceScanAux f fuel p s acc = acc.reverse ++ s := by
  intro s
  induction s with
  | nil =>
    intro h fuel p acc
    cases fuel with
    | zero => simp [replaceScanAux]
    | succ k => simp [replaceScanAux, (hp p none []).trans (h 0)]
  | cons c t ih =>
    intro h fuel p acc
    cases fuel with
    | zero => simp [replaceScanAux]
    | succ k =>
      have h0 : f p (c :: t) = none := (hp p none (c :: t)).trans (h 0)
      have ht : ∀ n : Nat, f none (t.drop n) = none := fun n => h (n + 1)
      simp only [replaceScanAux, h0]
      rw [ih ht k (some c) (c :: acc)]
      simp

/-- Helper: one matching step of the replace scan. -/
theorem replaceScanAux_step_match (f : Option Char → List Char → Option (String × Nat))
    (rep : String) (k : Nat) (hk : k ≠ 0) {p : Option Char} {s acc : List Char}
    (h : f p s = some (rep, k)) (fuel : Nat) :
    replaceScanAux f (fuel + 1) p s acc =
      replaceScanAux f fuel ((s.take k).getLast? <|> p) (s.drop k)
        (rep.toList.reverse ++ acc) := by
  simp [replaceScanAux, h, hk]

/-- Helper: a replace scan whose single match sits at the head of the
string replaces it and copies the rest verbatim. -/
theorem replaceScan_single_head (f : Option Char → List Char → Option (String × Nat))
    (hp : ∀ p₁ p₂ s', f p₁ s' = f p₂ s') (s : String) (rep : String) (k : Nat)
    (h : f none s.toList = some (rep, k)) (hk : k ≠ 0)
    (hrest : ∀ n : Nat, f none ((s.toList.drop k).drop n) = none) :
    replaceScan f s = rep ++ String.mk (s.toList.drop k) := by
  unfold replaceScan
  rw [replaceScanAux_step_match f rep k hk h]
  rw [replaceScanAux_no_match f hp _ hrest]
  simp
  rfl

/-- Helper: a replace scan with no matching suffix is the identity. -/
theorem replaceScan_no_change (f : Option Char → List Char → Option (String × Nat))
    (hp : ∀ p₁ p₂ s', f p₁ s' = f p₂ s') (s : String)
    (h : ∀ n : Nat, f none (s.toList.drop n) = none) :
    replaceScan f s = s := by
  unfold replaceScan
  rw [replaceScanAux_no_match f hp _ h]
  rfl

/-- Helper: lift per-position failure of a concrete string (a decidable,
bounded check) to all suffixes. -/
theorem all_drops_none (f : Option Char → List Char → Option (String × Nat))
    (s : List Char) (hlen : ∀ n, n < s.length → f none (s.drop n) = none)
    (hnil : f none [] = none) : ∀ n : Nat, f none (s.drop n) = none := by
  intro n
  by_cases hb : n < s.length
  · exact hlen n hb
  · rw [List.drop_eq_nil_of_le (Nat.le_of_not_lt hb)]
    exact hnil

/-- Helper: both env scanners ignore the previous-character argument. -/
theorem envScanners_prev_free (env : List (String × String)) :
    (∀ p₁ p₂ s', envBracesAt env p₁ s' = envBracesAt env p₂ s') ∧
    (∀ p₁ p₂ s', envPlainAt env p₁ s' = envPlainAt env p₂ s') :=
  ⟨fun _ _ _ => rfl, fun _ _ _ => rfl⟩

/-- Helper: the braced-form parse fails on any dollar-free string. -/
theorem bracesParse_none_of_no_dollar (s : List Char) (h : ('$') ∉ s) :
    envBracesParse none s = none := by
  cases s with
  | nil => rfl
  | cons c t =>
    have hc : ¬(('$') == c) = true := by
      simp only [beq_iff_eq]
      intro hEq
      exact h (hEq ▸ List.mem_cons_self _ _)
    simp [envBracesParse, eatStr, listIsPrefix, hc]

/-- Helper: characters of an env name are never a dollar sign. -/
theorem envNameChar_ne_dollar {c : Char} (h : isEnvNameChar c = true) : ¬ c = ('$') := by
  intro hEq
  subst hEq
  simp [isEnvNameChar, isAsciiAlphaNum] at h

/-- Helper: a greedy name-class consume that stops at a closing brace. -/
theorem eatClass1_env_brace (c : Char) (cs rest : List Char)
    (hc : isEnvNameChar c = true) (hcs : cs.all isEnvNameChar) :
    eatClass1 isEnvNameChar (c :: (cs ++ braceR :: rest)) =
      some (String.mk (c :: cs), braceR :: rest) := by
  have hb1 : (braceR :: rest).takeWhile isEnvNameChar = [] := by
    simp [List.takeWhile_cons, show isEnvNameChar braceR = false from by decide]
  have hb2 : (braceR :: rest).dropWhile isEnvNameChar = braceR :: rest := by
    simp [List.dropWhile_cons, show isEnvNameChar braceR = false from by decide]
  simp [eatClass1, hc, takeWhile_all_append cs _ hcs, dropWhile_all_append cs _ hcs,
    hb1, hb2]

/-- Helper: a greedy name-class consume that stops at a slash. -/
theorem eatClass1_env_slash (c : Char) (cs rest : List Char)
    (hc : isEnvNameChar c = true) (hcs : cs.all isEnvNameChar) :
    eatClass1 isEnvNameChar (c :: (cs ++ ('/') :: rest)) =
      some (String.mk (c :: cs), ('/') :: rest) := by
  have hb1 : (('/') :: rest).takeWhile isEnvNameChar = [] := by
    simp [List.takeWhile_cons, show isEnvNameChar ('/') = false from by decide]
  have hb2 : (('/') :: rest).dropWhile isEnvNameChar = ('/') :: rest := by
    simp [List.dropWhile_cons, show isEnvNameChar ('/') = false from by decide]
  simp [eatClass1, hc, takeWhile_all_append cs _ hcs, dropWhile_all_append cs _ hcs,
    hb1, hb2]

/-- Helper: the braced-form parse at the head of
`${process.env.<nm>}<rest>` captures `nm` and consumes through the brace. -/
theorem bracesParse_head (nm : String) (h1 : nm.toList ≠ [])
    (h2 : nm.toList.all isEnvNameChar) (rest : List Char) :
    envBracesParse none (("$" ++ String.mk [braceL] ++ "process.env." ++ nm).toList
        ++ braceR :: rest) =
      some (nm, 15 + nm.toList.length) := by
  obtain ⟨c, cs, hcons⟩ : ∃ c cs, nm.toList = c :: cs := by
    cases hx : nm.toList with
    | nil => exact absurd hx h1
    | cons c cs => exact ⟨c, cs, rfl⟩
  have hall := h2
  rw [hcons] at hall
  simp only [List.all_cons, Bool.and_eq_true] at hall
  have hstep : envBracesParse none
      (("$" ++ String.mk [braceL] ++ "process.env." ++ nm).toList ++ braceR :: rest) =
      Option.bind (eatClass1 isEnvNameChar (nm.toList ++ braceR :: rest)) (fun q =>
        Option.bind (eatStr (String.mk [braceR]) (eatWs q.2)) (fun s6 =>
          some (q.1, (("$" ++ String.mk [braceL] ++ "process.env." ++ nm).toList
            ++ braceR :: rest).length - s6.length))) := rfl
  rw [hstep, hcons]
  rw [show (c :: cs) ++ braceR :: rest = c :: (cs ++ braceR :: rest) from rfl]
  rw [eatClass1_env_brace c cs rest hall.1 hall.2]
  simp only [Option.bind]
  rw [show eatStr (String.mk [braceR]) (eatWs (braceR :: rest)) = some rest from rfl]
  simp only [Option.bind]
  have hmk : String.mk nm.toList = nm := rfl
  have heta : String.mk (c :: cs) = nm := (congrArg String.mk hcons).symm.trans hmk
  have hAlen : ("$" ++ String.mk [braceL] ++ "process.env." ++ nm).toList.length
      = 14 + nm.toList.length := by
    rw [show ("$" ++ String.mk [braceL] ++ "process.env." ++ nm).toList
        = ("$" ++ String.mk [braceL] ++ "process.env.").toList ++ nm.toList from rfl]
    rw [List.length_append]
    rw [show ("$" ++ String.mk [braceL] ++ "process.env.").toList.length = 14 from rfl]
  have hlen : (("$" ++ String.mk [braceL] ++ "process.env." ++ nm).toList
      ++ braceR :: rest).length - rest.length = 15 + nm.toList.length := by
    rw [List.length_append, hAlen, List.length_cons]
    omega
  rw [heta, hlen, ← hcons]

/-- Helper: the bare-form parse at the head of `process.env.<nm>/<rest>`
captures `nm` and stops at the slash. -/
theorem plainParse_head (nm : String) (h1 : nm.toList ≠ [])
    (h2 : nm.toList.all isEnvNameChar) (rest : List Char) :
    envPlainParse none (("process.env." ++ nm).toList ++ ('/') :: rest) =
      some (nm, 12 + nm.toList.length) := by
  obtain ⟨c, cs, hcons⟩ : ∃ c cs, nm.toList = c :: cs := by
    cases hx : nm.toList with
    | nil => exact absurd hx h1
    | cons c cs => exact ⟨c, cs, rfl⟩
  have hall := h2
  rw [hcons] at hall
  simp only [List.all_cons, Bool.and_eq_true] at hall
  have hstep : envPlainParse none (("process.env." ++ nm).toList ++ ('/') :: rest) =
      Option.bind (eatClass1 isEnvNameChar (nm.toList ++ ('/') :: rest)) (fun q =>
        some (q.1,
          (("process.env." ++ nm).toList ++ ('/') :: rest).length - q.2.length)) := rfl
  rw [hstep, hcons]
  rw [show (c :: cs) ++ ('/') :: rest = c :: (cs ++ ('/') :: rest) from rfl]
  rw [eatClass1_env_slash c cs rest hall.1 hall.2]
  simp only [Option.bind]
  have hmk : String.mk nm.toList = nm := rfl
  have heta : String.mk (c :: cs) = nm := (congrArg String.mk hcons).symm.trans hmk
  have hAlen : ("process.env." ++ nm).toList.length = 12 + nm.toList.length := by
    rw [show ("process.env." ++ nm).toList = ("process.env.").toList ++ nm.toList from rfl]
    rw [List.length_append]
    rw [show ("process.env.").toList.length = 12 from rfl]
  have hlen : (("process.env." ++ nm).toList ++ ('/') :: rest).length
      - (('/') :: rest).length = 12 + nm.toList.length := by
    rw [List.length_append, hAlen, List.length_cons]
    omega
  rw [heta, hlen, ← hcons]

/-- C10.  URL environment substitution: `loadDotEnv` of a missing `.env`
is the empty map; every `${process.env.NAME}` and `process.env.NAME`
occurrence (any non-empty name over the name class) is replaced via
`env[name] || ''` — the empty string when the name is unbound — before the
URL reaches route matching; a bound name substitutes its value, and names
absent from a non-empty `.env` also become the empty string. -/
theorem C10_env_resolution :
    (loadDotEnv none = []) ∧
    (∀ nm : String, nm.toList ≠ [] → nm.toList.all isEnvNameChar = true →
      resolveEnvInUrl ("$" ++ String.mk [braceL] ++ "process.env." ++ nm
        ++ String.mk [braceR] ++ "/api/users") (loadDotEnv none) = "/api/users") ∧
    (∀ nm : String, nm.toList ≠ [] → nm.toList.all isEnvNameChar = true →
      resolveEnvInUrl ("process.env." ++ nm ++ "/api/users") (loadDotEnv none)
        = "/api/users") ∧
    (resolveEnvInUrl ("$\x7bprocess.env.API_URL\x7d/a/$\x7bprocess.env.API_URL\x7d/b")
        (loadDotEnv none) = "/a//b") ∧
    (resolveEnvInUrl ("process.env.API_URL/api/users")
        (loadDotEnv (some ("OTHER=1"))) = "/api/users") ∧
    (resolveEnvInUrl ("$\x7bprocess.env.API_URL\x7d/api/users")
        (loadDotEnv (some ("API_URL=http://h"))) = "http://h/api/users") := by
  refine ⟨rfl, ?braced, ?bare, by decide, by decide, by decide⟩
  case braced =>
    intro nm h1 h2
    set url := "$" ++ String.mk [braceL] ++ "process.env." ++ nm
      ++ String.mk [braceR] ++ "/api/users" with hurldef
    have hA : ("$" ++ String.mk [braceL] ++ "process.env." ++ nm).toList.length
        = 14 + nm.toList.length := by
      rw [show ("$" ++ String.mk [braceL] ++ "process.env." ++ nm).toList
          = ("$" ++ String.mk [braceL] ++ "process.env.").toList ++ nm.toList from rfl]
      rw [List.length_append]
      rw [show ("$" ++ String.mk [braceL] ++ "process.env.").toList.length = 14 from rfl]
    have hurl : url.toList = ("$" ++ String.mk [braceL] ++ "process.env." ++ nm).toList
        ++ braceR :: ("/api/users").toList := by
      rw [show url.toList = (("$" ++ String.mk [braceL] ++ "process.env." ++ nm).toList
        ++ [braceR]) ++ ("/api/users").toList from rfl, List.append_assoc]
      rfl
    have hmatch : envBracesAt (loadDotEnv none) none url.toList
        = some ("", 15 + nm.toList.length) := by
      show (envBracesParse none url.toList).map
        (fun q => (envLookupOr (loadDotEnv none) q.1, q.2)) = _
      rw [hurl, bracesParse_head nm h1 h2]
      rfl
    have hdrop : url.toList.drop (15 + nm.toList.length) = ("/api/users").toList := by
      rw [hurl]
      rw [show ("$" ++ String.mk [braceL] ++ "process.env." ++ nm).toList
          ++ braceR :: ("/api/users").toList
          = (("$" ++ String.mk [braceL] ++ "process.env." ++ nm).toList ++ [braceR])
            ++ ("/api/users").toList from by simp]
      rw [show 15 + nm.toList.length
          = (("$" ++ String.mk [braceL] ++ "process.env." ++ nm).toList
              ++ [braceR]).length from by simp [hA]; omega]
      exact List.drop_left _ _
    have hrestAll : ∀ n : Nat,
        envBracesAt (loadDotEnv none) none (("/api/users").toList.drop n) = none := by
      refine all_drops_none _ _ ?_ rfl
      decide
    have hpass1 : replaceScan (envBracesAt (loadDotEnv none)) url = "/api/users" := by
      rw [replaceScan_single_head _ (envScanners_prev_free _).1 url ""
        (15 + nm.toList.length) hmatch (by omega)
        (fun n => by rw [hdrop]; exact hrestAll n)]
      rw [hdrop]
      rfl
    have hpass2 : ∀ m : Nat,
        envPlainAt (loadDotEnv none) none (("/api/users").toList.drop m) = none := by
      refine all_drops_none _ _ ?_ rfl
      decide
    show replaceScan (envPlainAt (loadDotEnv none))
      (replaceScan (envBracesAt (loadDotEnv none)) url) = "/api/users"
    rw [hpass1]
    exact replaceScan_no_change _ (envScanners_prev_free _).2 _ hpass2
  case bare =>
    intro nm h1 h2
    set url := "process.env." ++ nm ++ "/api/users" with hurldef
    have hsplit : url.toList = ("process.env." ++ nm).toList ++ ("/api/users").toList := rfl
    have hP : ("process.env." ++ nm).toList.length = 12 + nm.toList.length := by
      rw [show ("process.env." ++ nm).toList
          = ("process.env.").toList ++ nm.toList from rfl]
      rw [List.length_append]
      rw [show ("process.env.").toList.length = 12 from rfl]
    have hnodollar : ('$') ∉ url.toList := by
      rw [hsplit]
      intro hmem
      rcases List.mem_append.mp hmem with hmem1 | hmem2
      · rw [show ("process.env." ++ nm).toList
            = ("process.env.").toList ++ nm.toList from rfl] at hmem1
        rcases List.mem_append.mp hmem1 with hmem3 | hmem4
        · exact absurd hmem3 (by decide)
        · exact envNameChar_ne_dollar (List.all_eq_true.mp h2 _ hmem4) rfl
      · exact absurd hmem2 (by decide)
    have hpass1 : replaceScan (envBracesAt (loadDotEnv none)) url = url := by
      refine replaceScan_no_change _ (envScanners_prev_free _).1 _ (fun n => ?_)
      have hnd : ('$') ∉ url.toList.drop n :=
        fun hmem => hnodollar (List.mem_of_mem_drop hmem)
      show (envBracesParse none (url.toList.drop n)).map
        (fun q => (envLookupOr (loadDotEnv none) q.1, q.2)) = none
      rw [bracesParse_none_of_no_dollar _ hnd]
      rfl
    have hsplit2 : url.toList = ("process.env." ++ nm).toList
        ++ ('/') :: ("api/users").toList := rfl
    have hmatch : envPlainAt (loadDotEnv none) none url.toList
        = some ("", 12 + nm.toList.length) := by
      show (envPlainParse none url.toList).map
        (fun q => (envLookupOr (loadDotEnv none) q.1, q.2)) = _
      rw [hsplit2, plainParse_head nm h1 h2]
      rfl
    have hdrop : url.toList.drop (12 + nm.toList.length) = ("/api/users").toList := by
      rw [hsplit, show 12 + nm.toList.length
          = ("process.env." ++ nm).toList.length from hP.symm]
      exact List.drop_left _ _
    have hrestAll : ∀ n : Nat,
        envPlainAt (loadDotEnv none) none (("/api/users").toList.drop n) = none := by
      refine all_drops_none _ _ ?_ rfl
      decide
    show replaceScan (envPlainAt (loadDotEnv none))
      (replaceScan (envBracesAt (loadDotEnv none)) url) = "/api/users"
    rw [hpass1]
    rw [replaceScan_single_head _ (envScanners_prev_free _).2 url ""
      (12 + nm.toList.length) hmatch (by omega)
      (fun n => by rw [hdrop]; exact hrestAll n)]
    rw [hdrop]
    rfl

/-- C10 witness: both substitution forms at the concrete name `API_URL`
with no `.env` present. -/
theorem C10_env_resolution_witness :
    resolveEnvInUrl ("$" ++ String.mk [braceL] ++ "process.env." ++ ("API_URL")
        ++ String.mk [braceR] ++ "/api/users") (loadDotEnv none) = "/api/users" ∧
    resolveEnvInUrl ("process.env." ++ ("API_URL") ++ "/api/users") (loadDotEnv none)
        = "/api/users" :=
  ⟨C10_env_resolution.2.1 ("API_URL") (by decide) (by decide),
   C10_env_resolution.2.2.1 ("API_URL") (by decide) (by decide)⟩

/-- C9.  The claim says the Terraform pass emits a REFERENCES edge for a
`depends_on` (or inline) reference in a resource's block.  The strategy
recognizes both resources (the `type.name` index is populated from their
metadata), but stores no `codeSnippet` on any node, so the pass scans the
empty string and emits no edge at all on the failing input. -/
theorem C9_divergence_eval :
    ((tfResources c9Map).length = 2) ∧
    (c9Res.nodes.all (fun n => n.codeSnippet.isNone) = true) ∧
    (containsSub c9Text ("depends_on = [aws_s3_bucket.b]") = true) ∧
    ((analyzeTerraform c9Map).edges = []) := by
  decide

/-- Unfolding of the dedupe scan at a non-APIRoute node. -/
theorem dedupeScan_cons_skip (n : Node) (rest : List Node)
    (fk : List (String × String)) (tr : List String)
    (h : (n.type == "APIRoute") = false) :
    dedupeScan (n :: rest) fk tr = dedupeScan rest fk tr := by
  simp [dedupeScan, h]

/-- Unfolding of the dedupe scan at an APIRoute node whose key was already
seen: the node's id joins the removal set. -/
theorem dedupeScan_cons_seen (n : Node) (rest : List Node)
    (fk : List (String × String)) (tr : List String)
    (h1 : (n.type == "APIRoute") = true)
    (h2 : (fk.find? (fun p => p.1 == routeKey n)).isSome = true) :
    dedupeScan (n :: rest) fk tr
      = dedupeScan rest fk (if tr.contains n.id then tr else n.id :: tr) := by
  simp [dedupeScan, h1, h2]

/-- Unfolding of the dedupe scan at an APIRoute node with a fresh key: the
key is recorded with the node's id as canonical. -/
theorem dedupeScan_cons_fresh (n : Node) (rest : List Node)
    (fk : List (String × String)) (tr : List String)
    (h1 : (n.type == "APIRoute") = true)
    (h2 : (fk.find? (fun p => p.1 == routeKey n)).isSome = false) :
    dedupeScan (n :: rest) fk tr = dedupeScan rest ((routeKey n, n.id) :: fk) tr := by
  simp [dedupeScan, h1, h2]

/-- The scan processes an appended list by threading its accumulators. -/
theorem dedupeScan_append (l1 l2 : List Node) :
    ∀ fk tr, dedupeScan (l1 ++ l2) fk tr
      = dedupeScan l2 (dedupeScan l1 fk tr).1 (dedupeScan l1 fk tr).2 := by
  induction l1 with
  | nil => intro fk tr; rfl
  | cons a rest ih =>
    intro fk tr
    cases ht : a.type == "APIRoute" with
    | false =>
      rw [List.cons_append, dedupeScan_cons_skip a _ _ _ ht,
        dedupeScan_cons_skip a _ _ _ ht, ih]
    | true =>
      cases hs : (fk.find? (fun p => p.1 == routeKey a)).isSome with
      | true =>
        rw [List.cons_append, dedupeScan_cons_seen a _ _ _ ht hs,
          dedupeScan_cons_seen a _ _ _ ht hs, ih]
      | false =>
        rw [List.cons_append, dedupeScan_cons_fresh a _ _ _ ht hs,
          dedupeScan_cons_fresh a _ _ _ ht hs, ih]

/-- Ids already marked for removal stay marked through the scan. -/
theorem scan_tr_mono (ns : List Node) :
    ∀ fk tr i, i ∈ tr → i ∈ (dedupeScan ns fk tr).2 := by
  induction ns with
  | nil => intro fk tr i h; exact h
  | cons a rest ih =>
    intro fk tr i h
    cases ht : a.type == "APIRoute" with
    | false => rw [dedupeScan_cons_skip a _ _ _ ht]; exact ih _ _ _ h
    | true =>
      cases hs : (fk.find? (fun p => p.1 == routeKey a)).isSome with
      | true =>
        rw [dedupeScan_cons_seen a _ _ _ ht hs]
        refine ih _ _ _ ?_
        cases hc : tr.contains a.id with
        | true => rw [if_pos (by simp [hc])]; exact h
        | false => rw [if_neg (by simp [hc])]; exact List.mem_cons_of_mem _ h
      | false => rw [dedupeScan_cons_fresh a _ _ _ ht hs]; exact ih _ _ _ h

/-- Evaluation of find? on a cons cell. -/
theorem find_cons {α : Type} (p : α → Bool) (b : α) (l : List α) :
    (b :: l).find? p = if p b then some b else l.find? p := by
  cases hb : p b with
  | true => simp [List.find?, hb]
  | false => simp [List.find?, hb]

/-- A key present in the canonical map stays present through the scan. -/
theorem scan_fk_mono (ns : List Node) :
    ∀ fk tr k, (fk.find? (fun p => p.1 == k)).isSome = true →
      ((dedupeScan ns fk tr).1.find? (fun p => p.1 == k)).isSome = true := by
  induction ns with
  | nil => intro fk tr k h; exact h
  | cons a rest ih =>
    intro fk tr k h
    cases ht : a.type == "APIRoute" with
    | false => rw [dedupeScan_cons_skip a _ _ _ ht]; exact ih _ _ _ h
    | true =>
      cases hs : (fk.find? (fun p => p.1 == routeKey a)).isSome with
      | true => rw [dedupeScan_cons_seen a _ _ _ ht hs]; exact ih _ _ _ h
      | false =>
        rw [dedupeScan_cons_fresh a _ _ _ ht hs]
        refine ih _ _ _ ?_
        rw [find_cons]
        cases hk : routeKey a == k with
        | true => rw [if_pos (by simp)]; rfl
        | false => rw [if_neg (by simp)]; exact h

/-- Every APIRoute node's key is present after the scan passes it. -/
theorem scan_key_present (ns : List Node) :
    ∀ fk tr (n : Node), n ∈ ns → (n.type == "APIRoute") = true →
      ((dedupeScan ns fk tr).1.find? (fun p => p.1 == routeKey n)).isSome = true := by
  induction ns with
  | nil => intro fk tr n hm _; exact absurd hm (List.not_mem_nil n)
  | cons a rest ih =>
    intro fk tr n hm ht
    rcases List.mem_cons.mp hm with he | hm2
    · subst he
      cases hs : (fk.find? (fun p => p.1 == routeKey n)).isSome with
      | true =>
        rw [dedupeScan_cons_seen n rest fk tr ht hs]
        exact scan_fk_mono rest _ _ _ hs
      | false =>
        rw [dedupeScan_cons_fresh n rest fk tr ht hs]
        refine scan_fk_mono rest _ _ _ ?_
        rw [find_cons]
        rw [if_pos (by simp)]
        rfl
    · cases ht2 : a.type == "APIRoute" with
      | false => rw [dedupeScan_cons_skip a _ _ _ ht2]; exact ih _ _ _ hm2 ht
      | true =>
        cases hs : (fk.find? (fun p => p.1 == routeKey a)).isSome with
        | true => rw [dedupeScan_cons_seen a _ _ _ ht2 hs]; exact ih _ _ _ hm2 ht
        | false => rw [dedupeScan_cons_fresh a _ _ _ ht2 hs]; exact ih _ _ _ hm2 ht

/-- An id carried by no node and not already marked is never marked. -/
theorem scan_tr_new (ns : List Node) :
    ∀ fk tr i, i ∉ tr → (∀ x ∈ ns, x.id ≠ i) → i ∉ (dedupeScan ns fk tr).2 := by
  induction ns with
  | nil => intro fk tr i h _; exact h
  | cons a rest ih =>
    intro fk tr i h hx
    have hxa : a.id ≠ i := hx a (List.mem_cons_self a rest)
    have hxr : ∀ x ∈ rest, x.id ≠ i := fun x hxm => hx x (List.mem_cons_of_mem a hxm)
    cases ht : a.type == "APIRoute" with
    | false => rw [dedupeScan_cons_skip a _ _ _ ht]; exact ih _ _ _ h hxr
    | true =>
      cases hs : (fk.find? (fun p => p.1 == routeKey a)).isSome with
      | true =>
        rw [dedupeScan_cons_seen a _ _ _ ht hs]
        refine ih _ _ _ ?_ hxr
        cases hc : tr.contains a.id with
        | true => rw [if_pos (by simp [hc])]; exact h
        | false =>
          rw [if_neg (by simp [hc])]
          intro hmem
          rcases List.mem_cons.mp hmem with he | hm
          · exact hxa he.symm
          · exact h hm
      | false => rw [dedupeScan_cons_fresh a _ _ _ ht hs]; exact ih _ _ _ h hxr

/-- A successful find? splits the list at the first match: the match
satisfies the test and everything before it fails it. -/
theorem find_eq_some_split {α : Type} (p : α → Bool) :
    ∀ (l : List α) (a : α), l.find? p = some a →
      ∃ s t, l = s ++ a :: t ∧ p a = true ∧ ∀ x ∈ s, p x = false := by
  intro l
  induction l with
  | nil => intro a h; simp [List.find?] at h
  | cons b rest ih =>
    intro a h
    cases hb : p b with
    | true =>
      rw [find_cons, if_pos (by simp [hb])] at h
      have hba : b = a := Option.some.inj h
      subst hba
      exact ⟨[], rest, rfl, hb, fun x hx => absurd hx (List.not_mem_nil x)⟩
    | false =>
      rw [find_cons, if_neg (by simp [hb])] at h
      obtain ⟨s, t, hst, hpa, hall⟩ := ih a h
      refine ⟨b :: s, t, by rw [List.cons_append, hst], hpa, fun x hx => ?_⟩
      rcases List.mem_cons.mp hx with he | hm
      · rw [he]; exact hb
      · exact hall x hm

/-- find? returns the head of a split whose earlier part has no match. -/
theorem find_eq_some_make {α : Type} (p : α → Bool) :
    ∀ (s : List α) (a : α) (t : List α), p a = true → (∀ x ∈ s, p x = false) →
      (s ++ a :: t).find? p = some a := by
  intro s
  induction s with
  | nil =>
    intro a t ha _
    rw [List.nil_append, find_cons, if_pos (by simp [ha])]
  | cons b s2 ih =>
    intro a t ha hall
    have hb : p b = false := hall b (List.mem_cons_self b s2)
    rw [List.cons_append, find_cons, if_neg (by simp [hb])]
    exact ih a t ha (fun x hx => hall x (List.mem_cons_of_mem b hx))

/-- The first APIRoute carrying a key is never marked for removal when the
ids are pairwise distinct, the key is not yet canonical and the id is not
yet marked. -/
theorem scan_first_kept (k : String) :
    ∀ (ns : List Node) (fk : List (String × String)) (tr : List String) (n : Node),
      (ns.map Node.id).Nodup →
      ns.find? (fun x => x.type == "APIRoute" && routeKey x == k) = some n →
      fk.find? (fun p => p.1 == k) = none →
      n.id ∉ tr →
      n.id ∉ (dedupeScan ns fk tr).2 := by
  intro ns
  induction ns with
  | nil => intro fk tr n _ hf; simp [List.find?] at hf
  | cons a rest ih =>
    intro fk tr n hnd hf hfk htr
    have hnd' : a.id ∉ rest.map Node.id ∧ (rest.map Node.id).Nodup := by
      rw [List.map_cons, List.nodup_cons] at hnd
      exact hnd
    rw [find_cons] at hf
    cases hpa : (a.type == "APIRoute" && routeKey a == k) with
    | true =>
      rw [if_pos (by simp [hpa])] at hf
      have hsplit := hpa
      rw [Bool.and_eq_true] at hsplit
      obtain ⟨ht, hk⟩ := hsplit
      have hkeq : routeKey a = k := eq_of_beq hk
      have han : a = n := Option.some.inj hf
      subst han
      have hfk2 : (fk.find? (fun p => p.1 == routeKey a)).isSome = false := by
        rw [hkeq, hfk]; rfl
      rw [dedupeScan_cons_fresh a rest fk tr ht hfk2]
      refine scan_tr_new rest _ _ _ htr ?_
      intro x hx hxe
      exact hnd'.1 (List.mem_map.mpr ⟨x, hx, hxe⟩)
    | false =>
      rw [if_neg (by simp [hpa])] at hf
      have hnr : n ∈ rest := List.mem_of_find?_eq_some hf
      have hne : a.id ≠ n.id := fun he => hnd'.1 (List.mem_map.mpr ⟨n, hnr, he.symm⟩)
      cases ht : a.type == "APIRoute" with
      | false => rw [dedupeScan_cons_skip a _ _ _ ht]; exact ih _ _ _ hnd'.2 hf hfk htr
      | true =>
        cases hs : (fk.find? (fun p => p.1 == routeKey a)).isSome with
        | true =>
          rw [dedupeScan_cons_seen a _ _ _ ht hs]
          refine ih _ _ _ hnd'.2 hf hfk ?_
          cases hc : tr.contains a.id with
          | true => rw [if_pos (by simp [hc])]; exact htr
          | false =>
            rw [if_neg (by simp [hc])]
            intro hmem
            rcases List.mem_cons.mp hmem with he | hm
            · exact hne he.symm
            · exact htr hm
        | false =>
          rw [dedupeScan_cons_fresh a _ _ _ ht hs]
          refine ih _ _ _ hnd'.2 hf ?_ htr
          have hknej : (routeKey a == k) = false := by
            rw [ht] at hpa
            simpa using hpa
          rw [find_cons, if_neg (by simp [hknej])]
          exact hfk

/-- An APIRoute occurring after another one with the same key is marked
for removal by the scan. -/
theorem scan_dup_removed (pre2 post : List Node) (n m : Node)
    (htn : (n.type == "APIRoute") = true)
    (hm : m ∈ pre2) (htm : (m.type == "APIRoute") = true)
    (hkey : routeKey m = routeKey n) :
    n.id ∈ (dedupeScan (pre2 ++ n :: post) [] []).2 := by
  rw [dedupeScan_append]
  have hpresent :
      (((dedupeScan pre2 [] []).1).find? (fun p => p.1 == routeKey n)).isSome = true := by
    rw [← hkey]
    exact scan_key_present pre2 _ _ m hm htm
  rw [dedupeScan_cons_seen n post _ _ htn hpresent]
  refine scan_tr_mono post _ _ _ ?_
  cases hc : ((dedupeScan pre2 [] []).2).contains n.id with
  | true =>
    rw [if_pos (by simp [hc])]
    exact List.mem_of_elem_eq_true hc
  | false =>
    rw [if_neg (by simp [hc])]
    exact List.mem_cons_self n.id _

/-- The canonical-id map built by the scan answers key lookups with the
first APIRoute of the list carrying the key (after the entries of the
initial accumulator). -/
theorem scan_fk_find (k : String) :
    ∀ (ns : List Node) (fk : List (String × String)) (tr : List String),
      (dedupeScan ns fk tr).1.find? (fun p => p.1 == k)
        = match fk.find? (fun p => p.1 == k) with
          | some q => some q
          | none => (ns.find? (fun x => x.type == "APIRoute" && routeKey x == k)).map
              (fun x => (routeKey x, x.id)) := by
  intro ns
  induction ns with
  | nil =>
    intro fk tr
    cases hfk : fk.find? (fun p => p.1 == k) with
    | some q => simp [dedupeScan, hfk]
    | none => simp [dedupeScan, hfk, List.find?]
  | cons a rest ih =>
    intro fk tr
    cases ht : a.type == "APIRoute" with
    | false =>
      have hskip : (a :: rest).find? (fun x => x.type == "APIRoute" && routeKey x == k)
          = rest.find? (fun x => x.type == "APIRoute" && routeKey x == k) := by
        rw [find_cons]
        simp [ht]
      rw [dedupeScan_cons_skip a _ _ _ ht, ih, hskip]
    | true =>
      cases hs : (fk.find? (fun p => p.1 == routeKey a)).isSome with
      | true =>
        rw [dedupeScan_cons_seen a _ _ _ ht hs, ih]
        cases hfk : fk.find? (fun p => p.1 == k) with
        | some q => rfl
        | none =>
          have hknej : (routeKey a == k) = false := by
            cases hkk : routeKey a == k with
            | false => rfl
            | true =>
              rw [eq_of_beq hkk, hfk] at hs
              simp at hs
          have hskip : (a :: rest).find? (fun x => x.type == "APIRoute" && routeKey x == k)
              = rest.find? (fun x => x.type == "APIRoute" && routeKey x == k) := by
            rw [find_cons]
            simp [ht, hknej]
          rw [hskip]
      | false =>
        rw [dedupeScan_cons_fresh a _ _ _ ht hs, ih]
        cases hkk : routeKey a == k with
        | true =>
          have hkeq : routeKey a = k := eq_of_beq hkk
          have hfknew : (((routeKey a, a.id) :: fk).find? (fun p => p.1 == k))
              = some (routeKey a, a.id) := by
            rw [find_cons, if_pos (by simp [hkk])]
          rw [hfknew]
          have hfk : fk.find? (fun p => p.1 == k) = none := by
            rw [← hkeq]
            cases hf2 : fk.find? (fun p => p.1 == routeKey a) with
            | none => rfl
            | some q => rw [hf2] at hs; simp at hs
          rw [hfk]
          have hfind : (a :: rest).find? (fun x => x.type == "APIRoute" && routeKey x == k)
              = some a := by
            rw [find_cons, if_pos (by simp [ht, hkk])]
          rw [hfind]
          rfl
        | false =>
          have hfknew : (((routeKey a, a.id) :: fk).find? (fun p => p.1 == k))
              = fk.find? (fun p => p.1 == k) := by
            rw [find_cons, if_neg (by simp [hkk])]
          have hskip : (a :: rest).find? (fun x => x.type == "APIRoute" && routeKey x == k)
              = rest.find? (fun x => x.type == "APIRoute" && routeKey x == k) := by
            rw [find_cons]
            simp [ht, hkk]
          rw [hfknew, hskip]

/-- With pairwise-distinct ids the id search finds the node itself. -/
theorem find_id_first (ns : List Node) (d : Node)
    (hnd : (ns.map Node.id).Nodup) (hd : d ∈ ns) :
    ns.find? (fun x => x.id == d.id) = some d := by
  obtain ⟨s, t, hst⟩ := List.append_of_mem hd
  subst hst
  have hnd2 : (s.map Node.id ++ d.id :: t.map Node.id).Nodup := by
    simpa using hnd
  have hnotmem : d.id ∉ s.map Node.id ++ t.map Node.id :=
    (List.nodup_cons.mp (List.nodup_middle.mp hnd2)).1
  refine find_eq_some_make _ s d t (by simp) ?_
  intro x hx
  cases hb : x.id == d.id with
  | false => rfl
  | true =>
    exact absurd (List.mem_append_left _ (List.mem_map.mpr ⟨x, hx, eq_of_beq hb⟩)) hnotmem

/-- A list with a member is not empty. -/
theorem isEmpty_false_of_mem {α : Type} {a : α} {l : List α} (h : a ∈ l) :
    l.isEmpty = false := by
  cases l with
  | nil => exact absurd h (List.not_mem_nil a)
  | cons b t => rfl

/-- The dedupe pass is the identity when the removal set is empty. -/
theorem dedupe_eq_self (m : CodeMap) (he : ((dedupeScan m.nodes [] []).2).isEmpty = true) :
    dedupeAPIRoutes m = m := by
  simp only [dedupeAPIRoutes]
  rw [if_pos he]

/-- The deduped node list when the removal set is non-empty. -/
theorem dedupe_nodes_eq (m : CodeMap)
    (he : ((dedupeScan m.nodes [] []).2).isEmpty = false) :
    (dedupeAPIRoutes m).nodes
      = m.nodes.filter (fun n => !((dedupeScan m.nodes [] []).2.contains n.id)) := by
  simp only [dedupeAPIRoutes]
  rw [if_neg (by simp [he])]

/-- The deduped edge list when the removal set is non-empty. -/
theorem dedupe_edges_eq (m : CodeMap)
    (he : ((dedupeScan m.nodes [] []).2).isEmpty = false) :
    (dedupeAPIRoutes m).edges = m.edges.map (fun e =>
      if (dedupeScan m.nodes [] []).2.contains e.targetId then
        match m.nodes.find? (fun nn => nn.id == e.targetId) with
        | some dup =>
          match (((dedupeScan m.nodes [] []).1).find?
              (fun p => p.1 == routeKey dup)).map Prod.snd with
          | some canonical => { e with targetId := canonical }
          | none => e
        | none => e
      else e) := by
  simp only [dedupeAPIRoutes]
  rw [if_neg (by simp [he])]

/-- A node surviving the dedupe was present and is unmarked. -/
theorem dedupe_nodes_mem (m : CodeMap) (b : Node) (hb : b ∈ (dedupeAPIRoutes m).nodes) :
    b ∈ m.nodes ∧ b.id ∉ (dedupeScan m.nodes [] []).2 := by
  cases he : ((dedupeScan m.nodes [] []).2).isEmpty with
  | true =>
    have hnil : (dedupeScan m.nodes [] []).2 = [] := by
      cases hl : (dedupeScan m.nodes [] []).2 with
      | nil => rfl
      | cons x xs => rw [hl] at he; simp at he
    rw [dedupe_eq_self m he] at hb
    exact ⟨hb, by rw [hnil]; exact List.not_mem_nil b.id⟩
  | false =>
    rw [dedupe_nodes_eq m he] at hb
    have hsplit := List.mem_filter.mp hb
    refine ⟨hsplit.1, ?_⟩
    have h2 := hsplit.2
    have h3 : ((dedupeScan m.nodes [] []).2).contains b.id = false := by
      cases hcc : ((dedupeScan m.nodes [] []).2).contains b.id with
      | false => rfl
      | true => rw [hcc] at h2; simp at h2
    intro hmem
    have hc : ((dedupeScan m.nodes [] []).2).contains b.id = true :=
      List.elem_eq_true_of_mem hmem
    rw [h3] at hc
    exact Bool.noConfusion hc

/-- An unmarked node of the map survives the dedupe. -/
theorem dedupe_nodes_mem_of (m : CodeMap) (b : Node) (hb : b ∈ m.nodes)
    (hnr : b.id ∉ (dedupeScan m.nodes [] []).2) :
    b ∈ (dedupeAPIRoutes m).nodes := by
  cases he : ((dedupeScan m.nodes [] []).2).isEmpty with
  | true => rw [dedupe_eq_self m he]; exact hb
  | false =>
    rw [dedupe_nodes_eq m he]
    refine List.mem_filter.mpr ⟨hb, ?_⟩
    cases hc : ((dedupeScan m.nodes [] []).2).contains b.id with
    | false => rfl
    | true => exact absurd (List.mem_of_elem_eq_true hc) hnr

/-- C2 amended.  Provided the pre-dedupe node ids are pairwise distinct:
every surviving APIRoute node is the first of its `(filePath, label)` key
in encounter order, so no two surviving APIRoute nodes share a key; the
first node of each key does survive; and every edge whose targetId named a
removed duplicate is rewritten to the canonical survivor's id. -/
theorem C2_amended_dedupe (m : CodeMap) (hnd : (m.nodes.map Node.id).Nodup) :
    (∀ b ∈ (dedupeAPIRoutes m).nodes, (b.type == "APIRoute") = true →
      firstRoute m.nodes (routeKey b) = some b) ∧
    (∀ a ∈ (dedupeAPIRoutes m).nodes, ∀ b ∈ (dedupeAPIRoutes m).nodes,
      (a.type == "APIRoute") = true → (b.type == "APIRoute") = true →
      routeKey a = routeKey b → a = b) ∧
    (∀ k n, firstRoute m.nodes k = some n → n ∈ (dedupeAPIRoutes m).nodes) ∧
    (∀ e ∈ m.edges, ∀ d ∈ m.nodes, e.targetId = d.id →
      (d.type == "APIRoute") = true →
      ∀ c, firstRoute m.nodes (routeKey d) = some c → c ≠ d →
      { e with targetId := c.id } ∈ (dedupeAPIRoutes m).edges) := by
  have hfirst : ∀ b ∈ (dedupeAPIRoutes m).nodes, (b.type == "APIRoute") = true →
      firstRoute m.nodes (routeKey b) = some b := by
    intro b hb htb
    obtain ⟨hbm, hbnr⟩ := dedupe_nodes_mem m b hb
    obtain ⟨s, t, hst⟩ := List.append_of_mem hbm
    show m.nodes.find? (fun n => n.type == "APIRoute" && routeKey n == routeKey b) = some b
    rw [hst]
    refine find_eq_some_make _ s b t (by simp [htb]) ?_
    intro x hx
    cases hpx : (x.type == "APIRoute" && routeKey x == routeKey b) with
    | false => simp [hpx]
    | true =>
      rw [Bool.and_eq_true] at hpx
      have hrem : b.id ∈ (dedupeScan m.nodes [] []).2 := by
        rw [hst]
        exact scan_dup_removed s t b x htb hx hpx.1 (eq_of_beq hpx.2)
      exact absurd hrem hbnr
  have hpair : ∀ a ∈ (dedupeAPIRoutes m).nodes, ∀ b ∈ (dedupeAPIRoutes m).nodes,
      (a.type == "APIRoute") = true → (b.type == "APIRoute") = true →
      routeKey a = routeKey b → a = b := by
    intro a ha b hb hta htb hk
    have h1 := hfirst a ha hta
    have h2 := hfirst b hb htb
    rw [hk] at h1
    rw [h1] at h2
    exact Option.some.inj h2
  have hkeep : ∀ k n, firstRoute m.nodes k = some n → n ∈ (dedupeAPIRoutes m).nodes := by
    intro k n hf
    simp only [firstRoute] at hf
    have hnm : n ∈ m.nodes := List.mem_of_find?_eq_some hf
    refine dedupe_nodes_mem_of m n hnm ?_
    exact scan_first_kept k m.nodes [] [] n hnd hf rfl (List.not_mem_nil n.id)
  refine ⟨hfirst, hpair, hkeep, ?_⟩
  intro e he d hdm hid htd c hc hcd
  simp only [firstRoute] at hc
  obtain ⟨s, t, hst, hcp, hsx⟩ := find_eq_some_split _ m.nodes c hc
  have hdp : (d.type == "APIRoute" && routeKey d == routeKey d) = true := by simp [htd]
  have hdt : d ∈ t := by
    rw [hst] at hdm
    rcases List.mem_append.mp hdm with hds | hdc
    · have h1 : (d.type == "APIRoute" && routeKey d == routeKey d) = false := hsx d hds
      exact Bool.noConfusion (h1.symm.trans hdp)
    · rcases List.mem_cons.mp hdc with hdc2 | hdt2
      · exact absurd hdc2.symm hcd
      · exact hdt2
  obtain ⟨s2, t2, ht2⟩ := List.append_of_mem hdt
  have hst2 : m.nodes = (s ++ c :: s2) ++ d :: t2 := by
    rw [hst, ht2]
    simp
  have hkeycd : routeKey c = routeKey d := by
    rw [Bool.and_eq_true] at hcp
    exact eq_of_beq hcp.2
  have htc : (c.type == "APIRoute") = true := by
    rw [Bool.and_eq_true] at hcp
    exact hcp.1
  have hrem : d.id ∈ (dedupeScan m.nodes [] []).2 := by
    rw [hst2]
    exact scan_dup_removed (s ++ c :: s2) t2 d c htd
      (List.mem_append_right s (List.mem_cons_self c s2)) htc hkeycd
  have hne : ((dedupeScan m.nodes [] []).2).isEmpty = false := isEmpty_false_of_mem hrem
  rw [dedupe_edges_eq m hne]
  refine List.mem_map.mpr ⟨e, he, ?_⟩
  have hct : ((dedupeScan m.nodes [] []).2).contains e.targetId = true := by
    rw [hid]
    exact List.elem_eq_true_of_mem hrem
  have hf1 : m.nodes.find? (fun nn => nn.id == e.targetId) = some d := by
    rw [hid]
    exact find_id_first m.nodes d hnd hdm
  have hf2 : (((dedupeScan m.nodes [] []).1).find? (fun p => p.1 == routeKey d))
      = some (routeKey c, c.id) := by
    rw [scan_fk_find (routeKey d) m.nodes [] []]
    show (m.nodes.find? (fun x => x.type == "APIRoute" && routeKey x == routeKey d)).map
        (fun x => (routeKey x, x.id)) = some (routeKey c, c.id)
    rw [hc]
    rfl
  show (if (dedupeScan m.nodes [] []).2.contains e.targetId then
      match m.nodes.find? (fun nn => nn.id == e.targetId) with
      | some dup =>
        match (((dedupeScan m.nodes [] []).1).find?
            (fun p => p.1 == routeKey dup)).map Prod.snd with
        | some canonical => { e with targetId := canonical }
        | none => e
      | none => e
    else e) = { e with targetId := c.id }
  rw [if_pos hct, hf1]
  show (match (((dedupeScan m.nodes [] []).1).find?
      (fun p => p.1 == routeKey d)).map Prod.snd with
    | some canonical => { e with targetId := canonical }
    | none => e) = { e with targetId := c.id }
  rw [hf2]
  rfl

/-- C2 amended witness: with distinct ids `r1`/`r2` the canonical first
route survives and the edge to the removed duplicate is retargeted. -/
theorem C2_amended_dedupe_witness :
    c2bN1 ∈ (dedupeAPIRoutes c2bMap).nodes ∧
    { c2bEdge with targetId := c2bN1.id } ∈ (dedupeAPIRoutes c2bMap).edges :=
  ⟨(C2_amended_dedupe c2bMap (by decide)).2.2.1 ("s.ts::/x") c2bN1 (by decide),
   (C2_amended_dedupe c2bMap (by decide)).2.2.2 c2bEdge (by decide) c2bN2 (by decide)
     (by decide) (by decide) c2bN1 (by decide) (by decide)⟩

end Sodacan
